import Mathlib

/-!
# Verification of the PolyVox cubic surface extractor and mesh decimator

A shallow embedding of `CubicSurfaceExtractor.inl` and `MeshDecimator.inl`
(the two algorithmic files of this repository), together with theorems
settling the specification's claims against the code.

Conventions of the embedding:
* machine integers become `Nat`/`Int` (the `static_cast<uint8_t>` casts are
  written `% 256`);
* the voxel payload type `VolumeType::VoxelType` becomes a type parameter `V`
  with decidable equality;
* the out-parameter convention `bool isQuadNeeded(a, b, material&)` becomes
  `isQuadNeeded : V → V → Option V`;
* C++ exceptions become `Except`: the extractor's two `POLYVOX_THROW` sites give
  the two constructors of `ExtractError`;
* `float` positions of the decimator become exact rationals; comparisons of
  normalised dot products are expressed by the equivalent sign/square test.

Classes of the repository that are used but whose bodies are not among the
provided sources (`Mesh`, `Region`, `SurfaceMesh` services) are modelled from
the specification; each such definition carries a doc comment saying so.
-/

namespace PolyVox

/-- Source: `MaxVerticesPerPosition` constant of `CubicSurfaceExtractor.inl`
(maximum number of vertex slots per lattice position). -/
def MaxVerticesPerPosition : Nat := 8

/-- Source: `CubicVertex` — an encoded cubic-mesh vertex: byte-encoded lattice
position, material payload, ambient occlusion value. -/
structure CubicVertex (V : Type) where
  encodedPosition : Nat × Nat × Nat
  data : V
  ambientOcclusion : Nat
  deriving DecidableEq, Repr

/-- Source: `struct Quad` — four vertex indices. -/
structure Quad where
  v0 : Nat
  v1 : Nat
  v2 : Nat
  v3 : Nat
  deriving DecidableEq, Repr

/-- The two exception kinds raised by `extractCubicMeshCustom`:
`std::invalid_argument` for an oversized region and `std::runtime_error` for
exhausted vertex slots. -/
inductive ExtractError where
  | regionTooLargeToEncode
  | vertexSlotExhausted
  deriving DecidableEq, Repr

/-- The single error that the extraction core (everything after the region-size
checks) can raise: `addVertex`'s "all slots full but no matches". -/
inductive SlotError where
  | vertexSlotExhausted
  deriving DecidableEq, Repr

/-- Source: `vertexAmbientOcclusion(side1, side2, corner)` of
`CubicSurfaceExtractor.inl`. -/
def vertexAmbientOcclusion (side1 side2 corner : Bool) : Nat :=
  if side1 && side2 then 0
  else 3 - (side1.toNat + side2.toNat + corner.toNat)

/-- Source: `isSameVertex` — equality of material and ambient occlusion. -/
def isSameVertex {V : Type} [DecidableEq V] (v1 v2 : CubicVertex V) : Bool :=
  v1.data = v2.data && v1.ambientOcclusion = v2.ambientOcclusion

/-- One slot of the `Array<3, IndexAndMaterial>` slice buffers:
`none` models `iIndex == -1` (empty), `some (i, m, ao)` an occupied slot. -/
abbrev Slot (V : Type) := Option (Nat × V × Nat)

/-- The probing loop of `addVertex` (lines 197-222 of
`CubicSurfaceExtractor.inl`), over the slot column at the vertex's (X,Y)
position. Returns the vertex index, the updated column, and the updated vertex
list; raises `SlotError.vertexSlotExhausted` when every slot is occupied and
none matches. -/
def probeSlots {V : Type} [DecidableEq V] (pos : Nat × Nat × Nat) (mat : V)
    (ao : Nat) (mesh : List (CubicVertex V)) :
    List (Slot V) → Except SlotError (Nat × List (Slot V) × List (CubicVertex V))
  | [] => .error .vertexSlotExhausted
  | none :: rest =>
      let idx := mesh.length
      .ok (idx, some (idx, mat, ao) :: rest, mesh ++ [⟨pos, mat, ao⟩])
  | some (i, m, a) :: rest =>
      if m = mat ∧ a = ao then
        .ok (i, some (i, m, a) :: rest, mesh)
      else
        match probeSlots pos mat ao mesh rest with
        | .error e => .error e
        | .ok (j, rest', mesh') => .ok (j, some (i, m, a) :: rest', mesh')

/-- Source: `addVertex` — computes the ambient occlusion from the three
neighbouring voxels and probes the slot column; the encoded position carries
the `static_cast<uint8_t>` casts. -/
def addVertexCol {V : Type} [DecidableEq V] (uX uY uZ : Nat) (uMaterialIn : V)
    (col : List (Slot V)) (mesh : List (CubicVertex V)) (face1 face2 corner : V)
    (contributeToAO : V → Bool) :
    Except SlotError (Nat × List (Slot V) × List (CubicVertex V)) :=
  let ambientOcclusion := vertexAmbientOcclusion (contributeToAO face1)
    (contributeToAO face2) (contributeToAO corner)
  probeSlots (uX % 256, uY % 256, uZ % 256) uMaterialIn ambientOcclusion mesh col

/-- Whether a slot is occupied and its `(material, ambientOcclusion)` pair
matches. -/
def slotMatches {V : Type} [DecidableEq V] (mat : V) (ao : Nat) : Slot V → Prop
  | none => False
  | some (_, m, a) => m = mat ∧ a = ao

instance {V : Type} [DecidableEq V] (mat : V) (ao : Nat) (s : Slot V) :
    Decidable (slotMatches mat ao s) := by
  cases s with
  | none => exact isFalse (fun h => h)
  | some e => exact inferInstanceAs (Decidable (e.2.1 = mat ∧ e.2.2 = ao))

end PolyVox

namespace PolyVox

/-- `getVertex` on the vertex list (vector indexing; a default for the
out-of-range case that the C++ never exercises). -/
def getVertex {V : Type} [Inhabited V] (mesh : List (CubicVertex V)) (i : Nat) :
    CubicVertex V :=
  mesh.getD i ⟨(0, 0, 0), default, 0⟩

/-- Source: `mergeQuads(q1, q2, mesh)` — returns the rewritten `q1` when the
two quads merge (`true` branch of the C++), `none` when they cannot merge. -/
def mergeQuads {V : Type} [DecidableEq V] [Inhabited V]
    (mesh : List (CubicVertex V)) (q1 q2 : Quad) : Option Quad :=
  if isSameVertex (getVertex mesh q1.v0) (getVertex mesh q2.v0) &&
     isSameVertex (getVertex mesh q1.v1) (getVertex mesh q2.v1) &&
     isSameVertex (getVertex mesh q1.v2) (getVertex mesh q2.v2) &&
     isSameVertex (getVertex mesh q1.v3) (getVertex mesh q2.v3) then
    if q1.v0 = q2.v1 ∧ q1.v3 = q2.v2 then
      some { q1 with v0 := q2.v0, v3 := q2.v3 }
    else if q1.v3 = q2.v0 ∧ q1.v2 = q2.v1 then
      some { q1 with v3 := q2.v3, v2 := q2.v2 }
    else if q1.v1 = q2.v0 ∧ q1.v2 = q2.v3 then
      some { q1 with v1 := q2.v1, v2 := q2.v2 }
    else if q1.v0 = q2.v3 ∧ q1.v1 = q2.v2 then
      some { q1 with v0 := q2.v0, v1 := q2.v1 }
    else
      none
  else
    none

/-- The specification's attribute-equality of two quads: the four
corresponding vertices agree in material (`data`) and ambient occlusion
(vertex-index equality not required). -/
def quadsAttributeEqual {V : Type} [DecidableEq V] [Inhabited V]
    (mesh : List (CubicVertex V)) (q1 q2 : Quad) : Prop :=
  ((getVertex mesh q1.v0).data = (getVertex mesh q2.v0).data ∧
    (getVertex mesh q1.v0).ambientOcclusion = (getVertex mesh q2.v0).ambientOcclusion) ∧
  ((getVertex mesh q1.v1).data = (getVertex mesh q2.v1).data ∧
    (getVertex mesh q1.v1).ambientOcclusion = (getVertex mesh q2.v1).ambientOcclusion) ∧
  ((getVertex mesh q1.v2).data = (getVertex mesh q2.v2).data ∧
    (getVertex mesh q1.v2).ambientOcclusion = (getVertex mesh q2.v2).ambientOcclusion) ∧
  ((getVertex mesh q1.v3).data = (getVertex mesh q2.v3).data ∧
    (getVertex mesh q1.v3).ambientOcclusion = (getVertex mesh q2.v3).ambientOcclusion)

instance {V : Type} [DecidableEq V] [Inhabited V]
    (mesh : List (CubicVertex V)) (q1 q2 : Quad) :
    Decidable (quadsAttributeEqual mesh q1 q2) := by
  unfold quadsAttributeEqual; infer_instance

/-- The inner iterator sweep of `performQuadMerging`: merge later list elements
into `q1`, erasing each merged element (the `quads.erase(innerIter)` call);
returns the updated `q1`, the surviving rest, and whether anything merged. -/
def mergeQuadsInto {V : Type} [DecidableEq V] [Inhabited V]
    (mesh : List (CubicVertex V)) (q1 : Quad) :
    List Quad → Quad × List Quad × Bool
  | [] => (q1, [], false)
  | q2 :: rest =>
      match mergeQuads mesh q1 q2 with
      | some q1' =>
          let (q, r, _) := mergeQuadsInto mesh q1' rest
          (q, r, true)
      | none =>
          let (q, r, b) := mergeQuadsInto mesh q1 rest
          (q, q2 :: r, b)

/-- The outer iterator of `performQuadMerging`, with fuel for structural
recursion (erasures only shorten the list, so `length` fuel suffices and the
zero-fuel branch is unreachable). -/
def performQuadMergingAux {V : Type} [DecidableEq V] [Inhabited V]
    (mesh : List (CubicVertex V)) : Nat → List Quad → List Quad × Bool
  | _, [] => ([], false)
  | 0, l => (l, false)
  | fuel + 1, q :: rest =>
      let (q', rest', b1) := mergeQuadsInto mesh q rest
      let (rest'', b2) := performQuadMergingAux mesh fuel rest'
      (q' :: rest'', b1 || b2)

/-- Source: `performQuadMerging(quads, mesh)` — one full outer-iterator pass;
returns the rewritten list and the `bDidMerge` flag. -/
def performQuadMerging {V : Type} [DecidableEq V] [Inhabited V]
    (mesh : List (CubicVertex V)) (quads : List Quad) : List Quad × Bool :=
  performQuadMergingAux mesh quads.length quads

/-- The `while (performQuadMerging(...)){}` driver, with fuel; each iteration
that reports a merge has removed at least one quad, so `length + 1` fuel always
reaches the fixpoint. -/
def mergeLoop {V : Type} [DecidableEq V] [Inhabited V]
    (mesh : List (CubicVertex V)) : Nat → List Quad → List Quad
  | 0, l => l
  | fuel + 1, l =>
      let (l', b) := performQuadMerging mesh l
      if b then mergeLoop mesh fuel l' else l'

end PolyVox

namespace PolyVox

/- ### Claim theorems on the helpers -/

/-- C6: `vertexAmbientOcclusion` returns 0 when `side1` and `side2` are both
true, and `3 − (side1 + side2 + corner)` otherwise; the result always lies in
`[0, 3]`. -/
theorem c6_vertexAmbientOcclusion_spec :
    ∀ side1 side2 corner : Bool,
      vertexAmbientOcclusion side1 side2 corner =
        (if side1 = true ∧ side2 = true then 0
         else 3 - (side1.toNat + side2.toNat + corner.toNat)) ∧
      vertexAmbientOcclusion side1 side2 corner ≤ 3 := by
  decide

section AddVertexSpec

variable {V : Type} [DecidableEq V]

theorem probeSlots_error_iff (pos : Nat × Nat × Nat) (mat : V) (ao : Nat)
    (mesh : List (CubicVertex V)) (col : List (Slot V)) :
    probeSlots pos mat ao mesh col = .error .vertexSlotExhausted ↔
      ∀ s ∈ col, s.isSome = true ∧ ¬ slotMatches mat ao s := by
  induction col with
  | nil => simp [probeSlots]
  | cons s rest ih =>
      cases s with
      | none => simp [probeSlots, slotMatches]
      | some e =>
          obtain ⟨i, m, a⟩ := e
          by_cases h : m = mat ∧ a = ao
          · simp [probeSlots, h, slotMatches]
          · simp only [probeSlots, if_neg h]
            constructor
            · intro herr
              cases hrec : probeSlots pos mat ao mesh rest with
              | error e =>
                  intro t ht
                  rcases List.mem_cons.mp ht with rfl | hmem
                  · exact ⟨rfl, h⟩
                  · cases e
                    exact (ih.mp hrec) t hmem
              | ok r =>
                  rw [hrec] at herr
                  obtain ⟨j, rest', mesh'⟩ := r
                  simp at herr
            · intro hall
              have hresterr : probeSlots pos mat ao mesh rest =
                  .error .vertexSlotExhausted :=
                ih.mpr (fun t ht => hall t (List.mem_cons_of_mem _ ht))
              simp [hresterr]

theorem probeSlots_match (pos : Nat × Nat × Nat) (mat : V) (ao : Nat)
    (mesh : List (CubicVertex V)) (pre rest : List (Slot V)) (i : Nat) :
    (∀ s ∈ pre, s.isSome = true ∧ ¬ slotMatches mat ao s) →
    probeSlots pos mat ao mesh (pre ++ some (i, mat, ao) :: rest) =
      .ok (i, pre ++ some (i, mat, ao) :: rest, mesh) := by
  induction pre with
  | nil => intro _; simp [probeSlots]
  | cons s pre' ih =>
      intro hall
      have hs := hall s (by simp)
      cases s with
      | none => simp at hs
      | some e =>
          obtain ⟨j, m, a⟩ := e
          have hnm : ¬ (m = mat ∧ a = ao) := hs.2
          simp only [List.cons_append, probeSlots, if_neg hnm, List.append_eq]
          rw [ih (fun t ht => hall t (by simp [ht]))]

theorem probeSlots_alloc (pos : Nat × Nat × Nat) (mat : V) (ao : Nat)
    (mesh : List (CubicVertex V)) (pre rest : List (Slot V)) :
    (∀ s ∈ pre, s.isSome = true ∧ ¬ slotMatches mat ao s) →
    probeSlots pos mat ao mesh (pre ++ none :: rest) =
      .ok (mesh.length, pre ++ some (mesh.length, mat, ao) :: rest,
        mesh ++ [⟨pos, mat, ao⟩]) := by
  induction pre with
  | nil => intro _; simp [probeSlots]
  | cons s pre' ih =>
      intro hall
      have hs := hall s (by simp)
      cases s with
      | none => simp at hs
      | some e =>
          obtain ⟨j, m, a⟩ := e
          have hnm : ¬ (m = mat ∧ a = ao) := hs.2
          simp only [List.cons_append, probeSlots, if_neg hnm, List.append_eq]
          rw [ih (fun t ht => hall t (by simp [ht]))]

/-- C4: the `addVertex` probe over a slot column: (1) with only occupied,
non-matching slots before it, a matching occupied slot yields its stored index,
leaving column and vertex list untouched; (2) reaching an empty slot with no
earlier match allocates exactly one vertex with the given position, material
and AO, records it in that slot and returns its index; (3) the
`VertexSlotExhausted` error is raised iff every slot is occupied and none
matches (with the 8-slot columns of the slice buffers: all 8 occupied, no
match). -/
theorem c4_addVertex_probe_spec (pos : Nat × Nat × Nat) (mat : V) (ao : Nat)
    (mesh : List (CubicVertex V)) (col : List (Slot V)) :
    (∀ pre rest i, col = pre ++ some (i, mat, ao) :: rest →
      (∀ s ∈ pre, s.isSome = true ∧ ¬ slotMatches mat ao s) →
      probeSlots pos mat ao mesh col = .ok (i, col, mesh)) ∧
    (∀ pre rest, col = pre ++ none :: rest →
      (∀ s ∈ pre, s.isSome = true ∧ ¬ slotMatches mat ao s) →
      probeSlots pos mat ao mesh col =
        .ok (mesh.length, pre ++ some (mesh.length, mat, ao) :: rest,
          mesh ++ [⟨pos, mat, ao⟩])) ∧
    (probeSlots pos mat ao mesh col = .error .vertexSlotExhausted ↔
      ∀ s ∈ col, s.isSome = true ∧ ¬ slotMatches mat ao s) := by
  refine ⟨?_, ?_, probeSlots_error_iff pos mat ao mesh col⟩
  · intro pre rest i hcol hall
    subst hcol
    exact probeSlots_match pos mat ao mesh pre rest i hall
  · intro pre rest hcol hall
    subst hcol
    exact probeSlots_alloc pos mat ao mesh pre rest hall

/-- Witness for C4 at a concrete column: a match behind one non-matching
occupied slot, an allocation behind two occupied slots, and the exhaustion
case on a fully occupied, non-matching 8-slot column. -/
theorem c4_addVertex_probe_spec_witness :
    probeSlots (1, 2, 3) (7 : Nat) 2 [⟨(0, 0, 0), 9, 1⟩]
        [some (0, 9, 1), some (4, 7, 2), none] = .ok (4, [some (0, 9, 1), some (4, 7, 2), none], [⟨(0, 0, 0), 9, 1⟩]) ∧
    probeSlots (1, 2, 3) (7 : Nat) 2 [⟨(0, 0, 0), 9, 1⟩]
        [some (0, 9, 1), none] =
      .ok (1, [some (0, 9, 1), some (1, 7, 2)], [⟨(0, 0, 0), 9, 1⟩, ⟨(1, 2, 3), 7, 2⟩]) ∧
    probeSlots (1, 2, 3) (7 : Nat) 2 []
        (List.replicate 8 (some (0, 9, 1))) = .error .vertexSlotExhausted := by
  refine ⟨?_, ?_, ?_⟩
  · exact (c4_addVertex_probe_spec (1, 2, 3) 7 2 [⟨(0, 0, 0), 9, 1⟩]
      [some (0, 9, 1), some (4, 7, 2), none]).1 [some (0, 9, 1)] [none] 4 rfl
      (by decide)
  · exact (c4_addVertex_probe_spec (1, 2, 3) 7 2 [⟨(0, 0, 0), 9, 1⟩]
      [some (0, 9, 1), none]).2.1 [some (0, 9, 1)] [] rfl (by decide)
  · exact (c4_addVertex_probe_spec (1, 2, 3) 7 2 []
      (List.replicate 8 (some (0, 9, 1)))).2.2.mpr (by decide)

end AddVertexSpec

section MergeQuadsSpec

variable {V : Type} [DecidableEq V] [Inhabited V]

theorem mergeQuads_bool_iff (mesh : List (CubicVertex V)) (q1 q2 : Quad) :
    (isSameVertex (getVertex mesh q1.v0) (getVertex mesh q2.v0) &&
     isSameVertex (getVertex mesh q1.v1) (getVertex mesh q2.v1) &&
     isSameVertex (getVertex mesh q1.v2) (getVertex mesh q2.v2) &&
     isSameVertex (getVertex mesh q1.v3) (getVertex mesh q2.v3)) = true ↔
      quadsAttributeEqual mesh q1 q2 := by
  simp only [isSameVertex, quadsAttributeEqual, Bool.and_eq_true,
    decide_eq_true_eq]
  tauto

theorem mergeQuads_eq (mesh : List (CubicVertex V)) (q1 q2 : Quad) :
    mergeQuads mesh q1 q2 =
      if quadsAttributeEqual mesh q1 q2 then
        if q1.v0 = q2.v1 ∧ q1.v3 = q2.v2 then
          some { q1 with v0 := q2.v0, v3 := q2.v3 }
        else if q1.v3 = q2.v0 ∧ q1.v2 = q2.v1 then
          some { q1 with v3 := q2.v3, v2 := q2.v2 }
        else if q1.v1 = q2.v0 ∧ q1.v2 = q2.v3 then
          some { q1 with v1 := q2.v1, v2 := q2.v2 }
        else if q1.v0 = q2.v3 ∧ q1.v1 = q2.v2 then
          some { q1 with v0 := q2.v0, v1 := q2.v1 }
        else none
      else none := by
  by_cases hA : quadsAttributeEqual mesh q1 q2
  · rw [mergeQuads, if_pos ((mergeQuads_bool_iff mesh q1 q2).mpr hA), if_pos hA]
  · rw [mergeQuads,
      if_neg (fun hc => hA ((mergeQuads_bool_iff mesh q1 q2).mp hc)),
      if_neg hA]

/-- C7: `mergeQuads` combines `q1` and `q2` iff the four corresponding
vertices are attribute-equal and one of the four shared-edge orientations
holds on the vertex indices; on a merge, `q1`'s two shared corners are
replaced by `q2`'s opposite corners according to the matched orientation; and
at the `performQuadMerging` level the merged `q2` is erased from the list
while a non-merging pair is left unchanged. -/
theorem c7_mergeQuads_spec (mesh : List (CubicVertex V)) (q1 q2 : Quad) :
    ((mergeQuads mesh q1 q2).isSome = true ↔
      quadsAttributeEqual mesh q1 q2 ∧
        ((q1.v0 = q2.v1 ∧ q1.v3 = q2.v2) ∨ (q1.v3 = q2.v0 ∧ q1.v2 = q2.v1) ∨
         (q1.v1 = q2.v0 ∧ q1.v2 = q2.v3) ∨ (q1.v0 = q2.v3 ∧ q1.v1 = q2.v2))) ∧
    (quadsAttributeEqual mesh q1 q2 →
      ((q1.v0 = q2.v1 ∧ q1.v3 = q2.v2 →
        mergeQuads mesh q1 q2 = some { q1 with v0 := q2.v0, v3 := q2.v3 }) ∧
      (¬(q1.v0 = q2.v1 ∧ q1.v3 = q2.v2) → q1.v3 = q2.v0 ∧ q1.v2 = q2.v1 →
        mergeQuads mesh q1 q2 = some { q1 with v3 := q2.v3, v2 := q2.v2 }) ∧
      (¬(q1.v0 = q2.v1 ∧ q1.v3 = q2.v2) → ¬(q1.v3 = q2.v0 ∧ q1.v2 = q2.v1) →
        q1.v1 = q2.v0 ∧ q1.v2 = q2.v3 →
        mergeQuads mesh q1 q2 = some { q1 with v1 := q2.v1, v2 := q2.v2 }) ∧
      (¬(q1.v0 = q2.v1 ∧ q1.v3 = q2.v2) → ¬(q1.v3 = q2.v0 ∧ q1.v2 = q2.v1) →
        ¬(q1.v1 = q2.v0 ∧ q1.v2 = q2.v3) → q1.v0 = q2.v3 ∧ q1.v1 = q2.v2 →
        mergeQuads mesh q1 q2 = some { q1 with v0 := q2.v0, v1 := q2.v1 }))) ∧
    (∀ q1', mergeQuads mesh q1 q2 = some q1' →
      performQuadMerging mesh [q1, q2] = ([q1'], true)) ∧
    (mergeQuads mesh q1 q2 = none →
      performQuadMerging mesh [q1, q2] = ([q1, q2], false)) := by
  refine ⟨?_, ?_, ?_, ?_⟩
  · rw [mergeQuads_eq]
    by_cases hA : quadsAttributeEqual mesh q1 q2
    · simp only [if_pos hA]
      by_cases h1 : q1.v0 = q2.v1 ∧ q1.v3 = q2.v2
      · rw [if_pos h1]; simp [hA, h1]
      · by_cases h2 : q1.v3 = q2.v0 ∧ q1.v2 = q2.v1
        · rw [if_neg h1, if_pos h2]; simp [hA, h1, h2]
        · by_cases h3 : q1.v1 = q2.v0 ∧ q1.v2 = q2.v3
          · rw [if_neg h1, if_neg h2, if_pos h3]; simp [hA, h1, h2, h3]
          · by_cases h4 : q1.v0 = q2.v3 ∧ q1.v1 = q2.v2
            · rw [if_neg h1, if_neg h2, if_neg h3, if_pos h4]
              simp [hA, h1, h2, h3, h4]
            · rw [if_neg h1, if_neg h2, if_neg h3, if_neg h4]
              simp [hA, h1, h2, h3, h4]
    · simp [if_neg hA, hA]
  · intro hA
    refine ⟨?_, ?_, ?_, ?_⟩
    · intro h1; rw [mergeQuads_eq, if_pos hA, if_pos h1]
    · intro h1 h2; rw [mergeQuads_eq, if_pos hA, if_neg h1, if_pos h2]
    · intro h1 h2 h3
      rw [mergeQuads_eq, if_pos hA, if_neg h1, if_neg h2, if_pos h3]
    · intro h1 h2 h3 h4
      rw [mergeQuads_eq, if_pos hA, if_neg h1, if_neg h2, if_neg h3, if_pos h4]
  · intro q1' h
    simp [performQuadMerging, performQuadMergingAux, mergeQuadsInto, h]
  · intro h
    simp [performQuadMerging, performQuadMergingAux, mergeQuadsInto, h]

/-- Witness for C7: a merge along the first orientation on a concrete
six-vertex mesh, the erasure of the merged quad, and an unchanged
non-adjacent pair. -/
theorem c7_mergeQuads_spec_witness :
    mergeQuads (List.replicate 6 (⟨(0, 0, 0), (1 : Nat), 3⟩ : CubicVertex Nat))
        ⟨0, 1, 2, 3⟩ ⟨4, 0, 3, 5⟩ = some ⟨4, 1, 2, 5⟩ ∧
    performQuadMerging (List.replicate 6 (⟨(0, 0, 0), (1 : Nat), 3⟩ : CubicVertex Nat))
        [⟨0, 1, 2, 3⟩, ⟨4, 0, 3, 5⟩] = ([⟨4, 1, 2, 5⟩], true) ∧
    performQuadMerging (List.replicate 6 (⟨(0, 0, 0), (1 : Nat), 3⟩ : CubicVertex Nat))
        [⟨0, 1, 2, 3⟩, ⟨4, 5, 5, 4⟩] = ([⟨0, 1, 2, 3⟩, ⟨4, 5, 5, 4⟩], false) := by
  have hsome : mergeQuads (List.replicate 6 (⟨(0, 0, 0), (1 : Nat), 3⟩ : CubicVertex Nat))
      ⟨0, 1, 2, 3⟩ ⟨4, 0, 3, 5⟩ = some ⟨4, 1, 2, 5⟩ :=
    ((c7_mergeQuads_spec (List.replicate 6 ⟨(0, 0, 0), 1, 3⟩)
      ⟨0, 1, 2, 3⟩ ⟨4, 0, 3, 5⟩).2.1 (by decide)).1 (by decide)
  have hnone : mergeQuads (List.replicate 6 (⟨(0, 0, 0), (1 : Nat), 3⟩ : CubicVertex Nat))
      ⟨0, 1, 2, 3⟩ ⟨4, 5, 5, 4⟩ = none := by decide
  exact ⟨hsome,
    (c7_mergeQuads_spec (List.replicate 6 ⟨(0, 0, 0), 1, 3⟩)
      ⟨0, 1, 2, 3⟩ ⟨4, 0, 3, 5⟩).2.2.1 ⟨4, 1, 2, 5⟩ hsome,
    (c7_mergeQuads_spec (List.replicate 6 ⟨(0, 0, 0), 1, 3⟩)
      ⟨0, 1, 2, 3⟩ ⟨4, 5, 5, 4⟩).2.2.2 hnone⟩

end MergeQuadsSpec

/- ### The full cubic surface extractor -/

/-- Modelled from the spec: `Region` — a closed 3D integer axis-aligned box
(the `Region` class body is not among the provided sources; the extractor uses
only its corner accessors and the inclusive voxel dimensions). -/
structure Region where
  lowerX : Int
  lowerY : Int
  lowerZ : Int
  upperX : Int
  upperY : Int
  upperZ : Int
  deriving DecidableEq, Repr

/-- Modelled from the spec: region width in voxels (inclusive box). -/
def Region.getWidthInVoxels (r : Region) : Int := r.upperX - r.lowerX + 1

/-- Modelled from the spec: region height in voxels (inclusive box). -/
def Region.getHeightInVoxels (r : Region) : Int := r.upperY - r.lowerY + 1

/-- Modelled from the spec: region depth in voxels (inclusive box). -/
def Region.getDepthInVoxels (r : Region) : Int := r.upperZ - r.lowerZ + 1

/-- Modelled from the spec: the `Mesh` container — vertex sequence, triangle
index sequence (three entries per triangle, appended by `addTriangle`), and
the region-lower-corner offset set at finalisation. -/
structure Mesh (V : Type) where
  vertices : List (CubicVertex V)
  indices : List Nat
  offset : Int × Int × Int
  deriving Repr

/-- `FaceNames` enumerator values. -/
def facePositiveX : Fin 6 := 0
/-- `FaceNames` enumerator values. -/
def facePositiveY : Fin 6 := 1
/-- `FaceNames` enumerator values. -/
def facePositiveZ : Fin 6 := 2
/-- `FaceNames` enumerator values. -/
def faceNegativeX : Fin 6 := 3
/-- `FaceNames` enumerator values. -/
def faceNegativeY : Fin 6 := 4
/-- `FaceNames` enumerator values. -/
def faceNegativeZ : Fin 6 := 5

/-- The extractor's working state: vertices added so far, the two slice
buffers (`m_previousSliceVertices`, `m_currentSliceVertices`, as slot columns
keyed by relative (x, y)), and the six per-face vectors of per-slice quad
lists (`m_vecQuads`). -/
structure ExtState (V : Type) where
  mesh : List (CubicVertex V)
  prevSlice : Nat × Nat → List (Slot V)
  currSlice : Nat × Nat → List (Slot V)
  vecQuads : Fin 6 → List (List Quad)

/-- A fresh slice buffer: every column holds `MaxVerticesPerPosition` empty
slots (the `memset` 0xff initialisation). -/
def emptySlice (V : Type) : Nat × Nat → List (Slot V) :=
  fun _ => List.replicate MaxVerticesPerPosition none

/-- One `addVertex` call against the chosen slice buffer (`useCurr` selects
`m_currentSliceVertices`), writing the updated column back. -/
def addVertexB {V : Type} [DecidableEq V] (useCurr : Bool) (uX uY uZ : Nat)
    (mat : V) (face1 face2 corner : V) (contributeToAO : V → Bool)
    (s : ExtState V) : Except SlotError (Nat × ExtState V) :=
  let col := if useCurr then s.currSlice (uX, uY) else s.prevSlice (uX, uY)
  match addVertexCol uX uY uZ mat col s.mesh face1 face2 corner contributeToAO with
  | .error e => .error e
  | .ok (i, col', mesh') =>
      if useCurr then
        .ok (i, { s with
          mesh := mesh'
          currSlice := fun p => if p = (uX, uY) then col' else s.currSlice p })
      else
        .ok (i, { s with
          mesh := mesh'
          prevSlice := fun p => if p = (uX, uY) then col' else s.prevSlice p })

/-- Arguments of one `addVertex` call inside a face block: relative position,
buffer choice, and the three AO neighbour voxels. -/
structure VertCall (V : Type) where
  uX : Nat
  uY : Nat
  uZ : Nat
  useCurr : Bool
  face1 : V
  face2 : V
  corner : V

/-- The four sequential `addVertex` calls of one face block. -/
def addFourVertices {V : Type} [DecidableEq V] (mat : V)
    (contributeToAO : V → Bool) (c0 c1 c2 c3 : VertCall V) (s : ExtState V) :
    Except SlotError (Nat × Nat × Nat × Nat × ExtState V) := do
  let (i0, s) ← addVertexB c0.useCurr c0.uX c0.uY c0.uZ mat c0.face1 c0.face2
    c0.corner contributeToAO s
  let (i1, s) ← addVertexB c1.useCurr c1.uX c1.uY c1.uZ mat c1.face1 c1.face2
    c1.corner contributeToAO s
  let (i2, s) ← addVertexB c2.useCurr c2.uX c2.uY c2.uZ mat c2.face1 c2.face2
    c2.corner contributeToAO s
  let (i3, s) ← addVertexB c3.useCurr c3.uX c3.uY c3.uZ mat c3.face1 c3.face2
    c3.corner contributeToAO s
  pure (i0, i1, i2, i3, s)

/-- `m_vecQuads[face][slice].push_back(quad)`. -/
def pushQuad {V : Type} (face : Fin 6) (slice : Nat) (q : Quad)
    (s : ExtState V) : ExtState V :=
  { s with vecQuads := fun f =>
      if f = face then
        (s.vecQuads f).set slice ((s.vecQuads f).getD slice [] ++ [q])
      else s.vecQuads f }

/-- One face block of the sweep: the `isQuadNeeded` outcome, the four
`addVertex` calls, the per-face corner order for the pushed quad, and the
target face list and slice. -/
structure FaceSpec (V : Type) where
  materialQ : Option V
  c0 : VertCall V
  c1 : VertCall V
  c2 : VertCall V
  c3 : VertCall V
  mkQuad : Nat → Nat → Nat → Nat → Quad
  face : Fin 6
  slice : Nat

/-- Run one face block: when `isQuadNeeded` produced a material, add the four
vertices and push the assembled quad onto the face's slice list. -/
def emitFace {V : Type} [DecidableEq V] (contributeToAO : V → Bool)
    (fs : FaceSpec V) (s : ExtState V) : Except SlotError (ExtState V) :=
  match fs.materialQ with
  | some material => do
      let (i0, i1, i2, i3, s) ← addFourVertices material contributeToAO
        fs.c0 fs.c1 fs.c2 fs.c3 s
      pure (pushQuad fs.face fs.slice (fs.mkQuad i0 i1 i2 i3) s)
  | none => pure s

/-- Run the face blocks of one voxel in order. -/
def emitFaces {V : Type} [DecidableEq V] (contributeToAO : V → Bool) :
    List (FaceSpec V) → ExtState V → Except SlotError (ExtState V)
  | [], s => .ok s
  | fs :: rest, s =>
      match emitFace contributeToAO fs s with
      | .error e => .error e
      | .ok s' => emitFaces contributeToAO rest s'

/-- The per-voxel body of the extraction sweep (lines 341-505 of
`CubicSurfaceExtractor.inl`): the six face checks `[A]`-`[F]`, each adding
four vertices and pushing one quad. Voxel peeks are written as absolute
lookups; the `moveNegative_/peek/movePositive_` groups of blocks B, D, F
resolve to the offsets used below. -/
def processVoxel {V : Type} [DecidableEq V] (vol : Int → Int → Int → V)
    (isQuadNeeded : V → V → Option V) (contributeToAO : V → Bool)
    (x y z : Int) (regX regY regZ : Nat) (s : ExtState V) :
    Except SlotError (ExtState V) :=
  let voxelCurrent := vol x y z
  let voxelLeft := vol (x - 1) y z
  let voxelBefore := vol x y (z - 1)
  let voxelLeftBefore := vol (x - 1) y (z - 1)
  let voxelRightBefore := vol (x + 1) y (z - 1)
  let voxelLeftBehind := vol (x - 1) y (z + 1)
  let voxelAboveLeft := vol (x - 1) (y + 1) z
  let voxelAboveBefore := vol x (y + 1) (z - 1)
  let voxelAboveLeftBefore := vol (x - 1) (y + 1) (z - 1)
  let voxelAboveRightBefore := vol (x + 1) (y + 1) (z - 1)
  let voxelAboveLeftBehind := vol (x - 1) (y + 1) (z + 1)
  let voxelBelow := vol x (y - 1) z
  let voxelBelowLeft := vol (x - 1) (y - 1) z
  let voxelBelowRight := vol (x + 1) (y - 1) z
  let voxelBelowBefore := vol x (y - 1) (z - 1)
  let voxelBelowBehind := vol x (y - 1) (z + 1)
  let voxelBelowLeftBefore := vol (x - 1) (y - 1) (z - 1)
  let voxelBelowRightBefore := vol (x + 1) (y - 1) (z - 1)
  let voxelBelowLeftBehind := vol (x - 1) (y - 1) (z + 1)
  let voxelBelowRightBehind := vol (x + 1) (y - 1) (z + 1)
  emitFaces contributeToAO
    [ -- X [A] LEFT
     ⟨isQuadNeeded voxelCurrent voxelLeft,
      ⟨regX, regY, regZ, false, voxelLeftBefore, voxelBelowLeft, voxelBelowLeftBefore⟩,
      ⟨regX, regY, regZ + 1, true, voxelBelowLeft, voxelLeftBehind, voxelBelowLeftBehind⟩,
      ⟨regX, regY + 1, regZ + 1, true, voxelLeftBehind, voxelAboveLeft, voxelAboveLeftBehind⟩,
      ⟨regX, regY + 1, regZ, false, voxelAboveLeft, voxelLeftBefore, voxelAboveLeftBefore⟩,
      fun v01 v14 v28 v35 => ⟨v01, v14, v28, v35⟩, faceNegativeX, regX⟩,
     -- X [B] RIGHT (the `moveNegativeX` re-peeks)
     ⟨isQuadNeeded voxelLeft voxelCurrent,
      ⟨regX, regY, regZ, false, vol x (y - 1) z, vol x y (z - 1), vol x (y - 1) (z - 1)⟩,
      ⟨regX, regY, regZ + 1, true, vol x (y - 1) z, vol x y (z + 1), vol x (y - 1) (z + 1)⟩,
      ⟨regX, regY + 1, regZ + 1, true, vol x (y + 1) z, vol x y (z + 1), vol x (y + 1) (z + 1)⟩,
      ⟨regX, regY + 1, regZ, false, vol x (y + 1) z, vol x y (z - 1), vol x (y + 1) (z - 1)⟩,
      fun v02 v13 v27 v36 => ⟨v02, v36, v27, v13⟩, facePositiveX, regX⟩,
     -- Y [C] BELOW
     ⟨isQuadNeeded voxelCurrent voxelBelow,
      ⟨regX, regY, regZ, false, voxelBelowBefore, voxelBelowLeft, voxelBelowLeftBefore⟩,
      ⟨regX + 1, regY, regZ, false, voxelBelowRight, voxelBelowBefore, voxelBelowRightBefore⟩,
      ⟨regX + 1, regY, regZ + 1, true, voxelBelowBehind, voxelBelowRight, voxelBelowRightBehind⟩,
      ⟨regX, regY, regZ + 1, true, voxelBelowLeft, voxelBelowBehind, voxelBelowLeftBehind⟩,
      fun v01 v12 v23 v34 => ⟨v01, v12, v23, v34⟩, faceNegativeY, regY⟩,
     -- Y [D] ABOVE (the `moveNegativeY` re-peeks)
     ⟨isQuadNeeded voxelBelow voxelCurrent,
      ⟨regX, regY, regZ, false, vol x y (z - 1), vol (x - 1) y z, vol (x - 1) y (z - 1)⟩,
      ⟨regX + 1, regY, regZ, false, vol (x + 1) y z, vol x y (z - 1), vol (x + 1) y (z - 1)⟩,
      ⟨regX + 1, regY, regZ + 1, true, vol x y (z + 1), vol (x + 1) y z, vol (x + 1) y (z + 1)⟩,
      ⟨regX, regY, regZ + 1, true, vol (x - 1) y z, vol x y (z + 1), vol (x - 1) y (z + 1)⟩,
      fun v05 v16 v27 v38 => ⟨v05, v38, v27, v16⟩, facePositiveY, regY⟩,
     -- Z [E] BEFORE
     ⟨isQuadNeeded voxelCurrent voxelBefore,
      ⟨regX, regY, regZ, false, voxelBelowBefore, voxelLeftBefore, voxelBelowLeftBefore⟩,
      ⟨regX, regY + 1, regZ, false, voxelAboveBefore, voxelLeftBefore, voxelAboveLeftBefore⟩,
      ⟨regX + 1, regY + 1, regZ, false, voxelAboveBefore, voxelRightBefore, voxelAboveRightBefore⟩,
      ⟨regX + 1, regY, regZ, false, voxelBelowBefore, voxelRightBefore, voxelBelowRightBefore⟩,
      fun v01 v15 v26 v32 => ⟨v01, v15, v26, v32⟩, faceNegativeZ, regZ⟩,
     -- Z [F] BEHIND (the `moveNegativeZ` re-peeks)
     ⟨isQuadNeeded voxelBefore voxelCurrent,
      ⟨regX, regY, regZ, false, vol x (y - 1) z, vol (x - 1) y z, vol (x - 1) (y - 1) z⟩,
      ⟨regX, regY + 1, regZ, false, vol x (y + 1) z, vol (x - 1) y z, vol (x - 1) (y + 1) z⟩,
      ⟨regX + 1, regY + 1, regZ, false, vol x (y + 1) z, vol (x + 1) y z, vol (x + 1) (y + 1) z⟩,
      ⟨regX + 1, regY, regZ, false, vol x (y - 1) z, vol (x + 1) y z, vol (x + 1) (y - 1) z⟩,
      fun v04 v18 v27 v33 => ⟨v04, v33, v27, v18⟩, facePositiveZ, regZ⟩] s

/-- Error-propagating loop over a list of indices (the `for` loops of the
sweep, under the `Except` effect of `addVertex`). -/
def loopM {V : Type} (f : Nat → ExtState V → Except SlotError (ExtState V)) :
    List Nat → ExtState V → Except SlotError (ExtState V)
  | [], s => .ok s
  | i :: rest, s =>
      match f i s with
      | .error e => .error e
      | .ok s' => loopM f rest s'

/-- The slice-buffer swap and reset performed after each z slice. -/
def swapSlices {V : Type} (s : ExtState V) : ExtState V :=
  { s with prevSlice := s.currSlice, currSlice := emptySlice V }

/-- The initial extractor state. -/
def initState (V : Type) (w h d : Nat) : ExtState V where
  mesh := []
  prevSlice := emptySlice V
  currSlice := emptySlice V
  vecQuads := fun f =>
    if f = facePositiveX ∨ f = faceNegativeX then List.replicate (w + 1) []
    else if f = facePositiveY ∨ f = faceNegativeY then List.replicate (h + 1) []
    else List.replicate (d + 1) []

/-- The triple-nested extraction sweep (z outermost), with buffer swap and
reset after each z slice. -/
def extractCore {V : Type} [DecidableEq V] (vol : Int → Int → Int → V)
    (region : Region) (isQuadNeeded : V → V → Option V)
    (contributeToAO : V → Bool) (w h d : Nat) :
    Except SlotError (ExtState V) :=
  loopM (fun regZ s =>
      match loopM (fun regY s =>
          loopM (fun regX s =>
              processVoxel vol isQuadNeeded contributeToAO
                (region.lowerX + regX) (region.lowerY + regY)
                (region.lowerZ + regZ) regX regY regZ s)
            (List.range w) s)
        (List.range h) s with
      | .error e => .error e
      | .ok s' => .ok (swapSlices s'))
    (List.range d) (initState V w h d)

/-- The triangle emission for one surviving quad (lines 533-546 of
`CubicSurfaceExtractor.inl`): the AO-diagonal choice of two triangles,
followed by the source's unconditional third `addTriangle(v0, v2, v3)`. -/
def triangulateQuad {V : Type} [Inhabited V] (mesh : List (CubicVertex V))
    (q : Quad) : List Nat :=
  let v00 := getVertex mesh q.v3
  let v01 := getVertex mesh q.v0
  let v10 := getVertex mesh q.v2
  let v11 := getVertex mesh q.v1
  (if v00.ambientOcclusion + v11.ambientOcclusion >
      v01.ambientOcclusion + v10.ambientOcclusion then
    [q.v1, q.v2, q.v3] ++ [q.v1, q.v3, q.v0]
  else
    [q.v0, q.v1, q.v2] ++ [q.v0, q.v2, q.v3]) ++ [q.v0, q.v2, q.v3]

/-- The surviving quads in emission order: faces in `FaceNames` order, slices
in order, each per-slice list first run through the merge loop when
`bMergeQuads` is set. -/
def survivingQuads {V : Type} [DecidableEq V] [Inhabited V]
    (mesh : List (CubicVertex V)) (bMergeQuads : Bool)
    (vecQuads : Fin 6 → List (List Quad)) : List Quad :=
  ([0, 1, 2, 3, 4, 5] : List (Fin 6)).flatMap fun f =>
    (vecQuads f).flatMap fun listQuads =>
      if bMergeQuads then mergeLoop mesh (listQuads.length + 1) listQuads
      else listQuads

/-- Modelled from the spec: `removeUnusedVertices` — keep exactly the vertices
referenced by the index buffer, in their original order. `keepUsed idx i0 vs`
walks `vs` whose first element has absolute index `i0`. -/
def keepUsed {A : Type} (idx : List Nat) : Nat → List A → List A
  | _, [] => []
  | i, v :: rest =>
      if i ∈ idx then v :: keepUsed idx (i + 1) rest
      else keepUsed idx (i + 1) rest

/-- The absolute indices of the kept vertices, in order (parallel to
`keepUsed`). -/
def usedIndices {A : Type} (idx : List Nat) : Nat → List A → List Nat
  | _, [] => []
  | i, _ :: rest =>
      if i ∈ idx then i :: usedIndices idx (i + 1) rest
      else usedIndices idx (i + 1) rest

/-- Position of the first occurrence of `j` in a list (the rank a kept vertex
gets after compaction). -/
def posIn (j : Nat) : List Nat → Nat
  | [] => 0
  | a :: r => if a = j then 0 else posIn j r + 1

/-- Modelled from the spec: `removeUnusedVertices` (compacts the vertex
table, rewrites indices, preserves order of first appearance). -/
def removeUnusedVertices {A : Type} (verts : List A)
    (idx : List Nat) : List A × List Nat :=
  (keepUsed idx 0 verts,
    idx.map (fun j => posIn j (usedIndices idx 0 verts)))

/-- `maxReionDimensionInVoxels` (sic) of the source. -/
def maxReionDimensionInVoxels : Int := 255

/-- Source: `extractCubicMeshCustom`, exposing the surviving quads alongside
the finished mesh (the quads are an intermediate of the same computation; the
public function projects them away). -/
def extractCubicPipeline {V : Type} [DecidableEq V] [Inhabited V]
    (vol : Int → Int → Int → V) (region : Region)
    (isQuadNeeded : V → V → Option V) (contributeToAO : V → Bool)
    (bMergeQuads : Bool) : Except ExtractError (List Quad × Mesh V) :=
  if region.getWidthInVoxels > maxReionDimensionInVoxels then
    .error .regionTooLargeToEncode
  else if region.getHeightInVoxels > maxReionDimensionInVoxels then
    .error .regionTooLargeToEncode
  else if region.getDepthInVoxels > maxReionDimensionInVoxels then
    .error .regionTooLargeToEncode
  else
    match extractCore vol region isQuadNeeded contributeToAO
        region.getWidthInVoxels.toNat region.getHeightInVoxels.toNat
        region.getDepthInVoxels.toNat with
    | .error _ => .error .vertexSlotExhausted
    | .ok s =>
        let quads := survivingQuads s.mesh bMergeQuads s.vecQuads
        let idx := quads.flatMap (triangulateQuad s.mesh)
        let (verts, idx') := removeUnusedVertices s.mesh idx
        .ok (quads, { vertices := verts
                      indices := idx'
                      offset := (region.lowerX, region.lowerY, region.lowerZ) })

/-- Source: `extractCubicMeshCustom` — region-size validation, sweep, quad
merging, triangulation, finalisation. -/
def extractCubicMeshCustom {V : Type} [DecidableEq V] [Inhabited V]
    (vol : Int → Int → Int → V) (region : Region)
    (isQuadNeeded : V → V → Option V) (contributeToAO : V → Bool)
    (bMergeQuads : Bool) : Except ExtractError (Mesh V) :=
  (extractCubicPipeline vol region isQuadNeeded contributeToAO
    bMergeQuads).map Prod.snd

/- ### Concrete extraction scenario: a single solid voxel in a 3x3x3 volume -/

/-- A 3×3×3 volume, empty except for one solid voxel at (1,1,1). -/
def singleVoxelVolume : Int → Int → Int → Bool :=
  fun x y z => decide (x = 1 ∧ y = 1 ∧ z = 1)

/-- The solid/empty quad predicate: a face is needed where a solid voxel
meets an empty one, with the solid value as material. -/
def solidIsQuadNeeded : Bool → Bool → Option Bool :=
  fun back front => if back && !front then some true else none

/-- The whole 3×3×3 volume as the extraction region. -/
def region3 : Region := ⟨0, 0, 0, 2, 2, 2⟩

/-- The single-voxel extraction (solid voxels contribute to AO, quad merging
enabled). -/
def singleVoxelResult : Except ExtractError (List Quad × Mesh Bool) :=
  extractCubicPipeline singleVoxelVolume region3 solidIsQuadNeeded id true

/-- The same extraction with quad merging disabled. -/
def singleVoxelResultNoMerge : Except ExtractError (List Quad × Mesh Bool) :=
  extractCubicPipeline singleVoxelVolume region3 solidIsQuadNeeded id false

/- ### Claim theorems on the extractor -/

/-- C1 (code bug): the triangulation step emits a *third* triangle
`(v0, v2, v3)` unconditionally after the two AO-diagonal triangles
(line 546 of the source duplicates line 544's `addTriangle` outside the
`if`/`else`). Evaluated on a quad `(0,1,2,3)`: with equal AO everywhere
(`else` branch) the code emits `(0,1,2)`, `(0,2,3)` and then `(0,2,3)` again;
with AO favouring the other diagonal (`if` branch) it emits `(1,2,3)`,
`(1,3,0)` and then the overlapping `(0,2,3)` — nine indices, not the six of
the two triangles that the specification describes. -/
theorem c1_triangulation_extra_triangle :
    triangulateQuad
        [(⟨(0, 0, 0), (1 : Nat), 3⟩ : CubicVertex Nat), ⟨(1, 0, 0), 1, 3⟩,
          ⟨(1, 1, 0), 1, 3⟩, ⟨(0, 1, 0), 1, 3⟩] ⟨0, 1, 2, 3⟩ =
      [0, 1, 2, 0, 2, 3] ++ [0, 2, 3] ∧
    triangulateQuad
        [(⟨(0, 0, 0), (1 : Nat), 2⟩ : CubicVertex Nat), ⟨(1, 0, 0), 1, 3⟩,
          ⟨(1, 1, 0), 1, 2⟩, ⟨(0, 1, 0), 1, 3⟩] ⟨0, 1, 2, 3⟩ =
      [1, 2, 3, 1, 3, 0] ++ [0, 2, 3] := by
  constructor <;> rfl

/-- C2 counterexample: on the single-solid-voxel scenario the claimed counts
are false — the extractor produces 54 triangle indices (18 triangles, three
per quad because of the unconditional extra triangle) and 8 vertices (the
cube corners deduplicate, all carrying the same material and AO = 3), not
12 triangles (36 indices) and 24 vertices. -/
theorem c2_single_voxel_counterexample :
    singleVoxelResult.map
        (fun r => (r.2.indices.length, r.2.vertices.length)) = .ok (54, 8) ∧
      ¬ (singleVoxelResult.map
        (fun r => (r.2.indices.length, r.2.vertices.length)) =
          .ok (3 * 12, 24)) := by
  refine ⟨rfl, ?_⟩
  intro hcontra
  rw [show singleVoxelResult.map
      (fun r => (r.2.indices.length, r.2.vertices.length)) = .ok (54, 8)
    from rfl] at hcontra
  simp at hcontra

/-- C2 amended: the single-solid-voxel extraction produces exactly 6 quads,
exactly 18 triangles (54 indices; three per quad, including the redundant
third), and exactly 8 vertices, each with ambient occlusion 3 — with and
without quad merging. -/
theorem c2_single_voxel_amended :
    singleVoxelResult.map
        (fun r => (r.1.length, r.2.indices.length, r.2.vertices.length,
          r.2.vertices.all (fun v => v.ambientOcclusion = 3))) =
      .ok (6, 3 * 18, 8, true) ∧
    singleVoxelResultNoMerge.map
        (fun r => (r.1.length, r.2.indices.length, r.2.vertices.length,
          r.2.vertices.all (fun v => v.ambientOcclusion = 3))) =
      .ok (6, 3 * 18, 8, true) := by
  constructor <;> rfl

/-- C3: when the requested region's width, height or depth exceeds 255 voxels
the extractor returns the distinct `RegionTooLargeToEncode` error — the check
precedes every state mutation, so no partial output exists (in this `Except`
embedding an error carries no mesh at all); when all three dimensions are at
most 255, that error is never returned (the only other possible error is the
distinct `VertexSlotExhausted`). -/
theorem c3_region_size_check {V : Type} [DecidableEq V] [Inhabited V]
    (vol : Int → Int → Int → V) (region : Region)
    (isQuadNeeded : V → V → Option V) (contributeToAO : V → Bool)
    (bMergeQuads : Bool) :
    ((region.getWidthInVoxels > 255 ∨ region.getHeightInVoxels > 255 ∨
        region.getDepthInVoxels > 255) →
      extractCubicMeshCustom vol region isQuadNeeded contributeToAO
        bMergeQuads = .error .regionTooLargeToEncode) ∧
    (region.getWidthInVoxels ≤ 255 ∧ region.getHeightInVoxels ≤ 255 ∧
        region.getDepthInVoxels ≤ 255 →
      extractCubicMeshCustom vol region isQuadNeeded contributeToAO
        bMergeQuads ≠ .error .regionTooLargeToEncode) := by
  constructor
  · intro h
    unfold extractCubicMeshCustom extractCubicPipeline maxReionDimensionInVoxels
    by_cases hw : region.getWidthInVoxels > 255
    · rw [if_pos hw]; rfl
    · rw [if_neg hw]
      by_cases hh : region.getHeightInVoxels > 255
      · rw [if_pos hh]; rfl
      · rw [if_neg hh]
        have hd : region.getDepthInVoxels > 255 := by tauto
        rw [if_pos hd]; rfl
  · rintro ⟨h1, h2, h3⟩
    unfold extractCubicMeshCustom extractCubicPipeline maxReionDimensionInVoxels
    rw [if_neg (by omega), if_neg (by omega), if_neg (by omega)]
    cases hcore : extractCore vol region isQuadNeeded contributeToAO
        region.getWidthInVoxels.toNat region.getHeightInVoxels.toNat
        region.getDepthInVoxels.toNat with
    | error e => simp [Except.map]
    | ok s => simp [Except.map]

/- ### The slice-buffer dedup invariant (C5) -/

section DedupInvariant

variable {V : Type} [DecidableEq V]

/-- Two vertices differ in their `(data, ambientOcclusion)` pair. -/
def attrDiffers (v w : CubicVertex V) : Prop :=
  v.data ≠ w.data ∨ v.ambientOcclusion ≠ w.ambientOcclusion

/-- The claim's per-position property: at most `MaxVerticesPerPosition`
vertices carry the position, and any two of them differ in
`(data, ambientOcclusion)`. -/
def goodPosition (verts : List (CubicVertex V)) (p : Nat × Nat × Nat) : Prop :=
  (verts.filter (fun v => decide (v.encodedPosition = p))).length ≤
    MaxVerticesPerPosition ∧
  List.Pairwise attrDiffers
    (verts.filter (fun v => decide (v.encodedPosition = p)))

/-- The invariant tying one slot column to the mesh: the occupied slots form
a prefix whose entries list, in order, exactly the mesh vertices at the
column's position, with pairwise distinct `(material, ao)` pairs. -/
def colInv (col : List (Slot V)) (mesh : List (CubicVertex V))
    (p : Nat × Nat × Nat) : Prop :=
  ∃ es : List (Nat × V × Nat),
    es.length ≤ MaxVerticesPerPosition ∧
    col = es.map some ++
      List.replicate (MaxVerticesPerPosition - es.length) none ∧
    mesh.filter (fun v => decide (v.encodedPosition = p)) =
      es.map (fun e => ⟨p, e.2.1, e.2.2⟩) ∧
    List.Pairwise (fun e f => ¬ (e.2.1 = f.2.1 ∧ e.2.2 = f.2.2)) es

/-- The sweep-wide invariant: both slice buffers' columns are faithful for
their epochs (`zPrev` for the previous slice, `zPrev + 1` for the current),
every mesh vertex is in component range with z at most `zPrev + 1`, and every
position of an already-retired slice satisfies the dedup property. -/
def extStateInv (s : ExtState V) (zPrev : Nat) : Prop :=
  (∀ X Y : Nat, X < 256 → Y < 256 →
    colInv (s.prevSlice (X, Y)) s.mesh (X, Y, zPrev)) ∧
  (∀ X Y : Nat, X < 256 → Y < 256 →
    colInv (s.currSlice (X, Y)) s.mesh (X, Y, zPrev + 1)) ∧
  (∀ v ∈ s.mesh, v.encodedPosition.1 < 256 ∧ v.encodedPosition.2.1 < 256 ∧
    v.encodedPosition.2.2 ≤ zPrev + 1) ∧
  (∀ p : Nat × Nat × Nat, p.2.2 < zPrev → goodPosition s.mesh p)

theorem goodPosition_of_colInv {col : List (Slot V)}
    {mesh : List (CubicVertex V)} {p : Nat × Nat × Nat}
    (h : colInv col mesh p) : goodPosition mesh p := by
  obtain ⟨es, hlen, _, hfilter, hpair⟩ := h
  constructor
  · rw [hfilter, List.length_map]; exact hlen
  · rw [hfilter, List.pairwise_map]
    refine hpair.imp ?_
    intro e f hne
    by_cases hd : e.2.1 = f.2.1
    · right
      intro hao
      exact hne ⟨hd, hao⟩
    · left
      exact hd

theorem goodPosition_of_filter_nil {mesh : List (CubicVertex V)}
    {p : Nat × Nat × Nat}
    (h : mesh.filter (fun v => decide (v.encodedPosition = p)) = []) :
    goodPosition mesh p := by
  constructor
  · rw [h]; simp [MaxVerticesPerPosition]
  · rw [h]; exact List.Pairwise.nil

theorem filter_append_single_ne {mesh : List (CubicVertex V)}
    {v : CubicVertex V} {p : Nat × Nat × Nat} (h : v.encodedPosition ≠ p) :
    (mesh ++ [v]).filter (fun w => decide (w.encodedPosition = p)) =
      mesh.filter (fun w => decide (w.encodedPosition = p)) := by
  rw [List.filter_append]
  simp [h]

theorem filter_append_single_eq {mesh : List (CubicVertex V)}
    {v : CubicVertex V} {p : Nat × Nat × Nat} (h : v.encodedPosition = p) :
    (mesh ++ [v]).filter (fun w => decide (w.encodedPosition = p)) =
      mesh.filter (fun w => decide (w.encodedPosition = p)) ++ [v] := by
  rw [List.filter_append]
  simp [h]

theorem goodPosition_extend {mesh : List (CubicVertex V)} {v : CubicVertex V}
    {p : Nat × Nat × Nat} (h : goodPosition mesh p)
    (hne : v.encodedPosition ≠ p) : goodPosition (mesh ++ [v]) p := by
  unfold goodPosition
  rw [filter_append_single_ne hne]
  exact h

theorem colInv_extend_other {col : List (Slot V)}
    {mesh : List (CubicVertex V)} {v : CubicVertex V} {p : Nat × Nat × Nat}
    (h : colInv col mesh p) (hne : v.encodedPosition ≠ p) :
    colInv col (mesh ++ [v]) p := by
  obtain ⟨es, hlen, hshape, hfilter, hpair⟩ := h
  exact ⟨es, hlen, hshape, by rw [filter_append_single_ne hne, hfilter], hpair⟩

theorem probeSlots_cases (pos : Nat × Nat × Nat) (mat : V) (ao : Nat) :
    ∀ (es : List (Nat × V × Nat)) (j : Nat) (mesh : List (CubicVertex V))
      (i : Nat) (col' : List (Slot V)) (mesh' : List (CubicVertex V)),
      probeSlots pos mat ao mesh (es.map some ++ List.replicate j none) =
        .ok (i, col', mesh') →
      (mesh' = mesh ∧ col' = es.map some ++ List.replicate j none) ∨
      (mesh' = mesh ++ [⟨pos, mat, ao⟩] ∧ 1 ≤ j ∧ i = mesh.length ∧
        col' = (es ++ [(mesh.length, mat, ao)]).map some ++
          List.replicate (j - 1) none ∧
        ∀ e ∈ es, ¬ (e.2.1 = mat ∧ e.2.2 = ao)) := by
  intro es
  induction es with
  | nil =>
      intro j mesh i col' mesh' h
      simp only [List.map_nil, List.nil_append] at h
      cases j with
      | zero => simp [probeSlots] at h
      | succ j' =>
          rw [List.replicate_succ] at h
          simp only [probeSlots, Except.ok.injEq, Prod.mk.injEq] at h
          obtain ⟨hi, hcol, hmesh⟩ := h
          right
          refine ⟨hmesh.symm, by omega, hi.symm, ?_, by simp⟩
          simp [hcol.symm]
  | cons e es' ih =>
      intro j mesh i col' mesh' h
      obtain ⟨i0, m, a⟩ := e
      simp only [List.map_cons, List.cons_append, probeSlots,
        List.append_eq] at h
      by_cases hm : m = mat ∧ a = ao
      · rw [if_pos hm] at h
        simp only [Except.ok.injEq, Prod.mk.injEq] at h
        obtain ⟨hi, hcol, hmesh⟩ := h
        left
        exact ⟨hmesh.symm, by simp [hcol.symm]⟩
      · rw [if_neg hm] at h
        cases hrec : probeSlots pos mat ao mesh
            (es'.map some ++ List.replicate j none) with
        | error e' => rw [hrec] at h; exact absurd h (by simp)
        | ok r =>
            obtain ⟨i', rest', mesh''⟩ := r
            rw [hrec] at h
            simp only [Except.ok.injEq, Prod.mk.injEq] at h
            obtain ⟨hi, hcol, hmesh⟩ := h
            rcases ih j mesh i' rest' mesh'' hrec with
              ⟨hm1, hc1⟩ | ⟨hm1, hj1, hi1, hc1, hnot1⟩
            · left
              refine ⟨by rw [← hmesh, hm1], ?_⟩
              rw [← hcol, hc1]
              simp
            · right
              refine ⟨by rw [← hmesh, hm1], hj1, by rw [← hi, hi1], ?_, ?_⟩
              · rw [← hcol, hc1]
                simp
              · intro f hf
                rcases List.mem_cons.mp hf with rfl | hf'
                · exact hm
                · exact hnot1 f hf'

theorem colInv_probe {col : List (Slot V)} {mesh : List (CubicVertex V)}
    {p : Nat × Nat × Nat} {mat : V} {ao i : Nat} {col' : List (Slot V)}
    {mesh' : List (CubicVertex V)}
    (hinv : colInv col mesh p)
    (h : probeSlots p mat ao mesh col = .ok (i, col', mesh')) :
    colInv col' mesh' p ∧
      (mesh' = mesh ∨ mesh' = mesh ++ [⟨p, mat, ao⟩]) := by
  obtain ⟨es, hlen, hshape, hfilter, hpair⟩ := hinv
  rw [hshape] at h
  rcases probeSlots_cases p mat ao es _ mesh i col' mesh' h with
    ⟨hm, hc⟩ | ⟨hm, hj, _, hc, hnot⟩
  · exact ⟨⟨es, hlen, by rw [hc], by rw [hm, hfilter], hpair⟩, Or.inl hm⟩
  · have hlen' : es.length + 1 ≤ MaxVerticesPerPosition := by
      have : MaxVerticesPerPosition - es.length ≥ 1 := hj
      omega
    refine ⟨⟨es ++ [(mesh.length, mat, ao)], by simpa using hlen', ?_, ?_, ?_⟩,
      Or.inr hm⟩
    · rw [hc]
      congr 1
      congr 1
      simp only [List.length_append, List.length_singleton]
      omega
    · rw [hm, @filter_append_single_eq V _ mesh ⟨p, mat, ao⟩ p rfl, hfilter,
        List.map_append]
      simp
    · rw [List.pairwise_append]
      refine ⟨hpair, List.pairwise_singleton _ _, ?_⟩
      intro e he f hf
      rw [List.mem_singleton] at hf
      subst hf
      exact hnot e he

/-- Well-formedness of one `addVertex` call of the sweep: components in byte
range and the z coordinate matching the chosen buffer's epoch. -/
def vertCallOk (c : VertCall V) (zPrev : Nat) : Prop :=
  c.uX < 256 ∧ c.uY < 256 ∧ c.uZ < 256 ∧
    c.uZ = (if c.useCurr then zPrev + 1 else zPrev)

theorem addVertexB_inv (useCurr : Bool) (uX uY uZ : Nat)
    (mat f1 f2 f3 : V) (cAO : V → Bool) (s : ExtState V) (i : Nat)
    (s' : ExtState V) (zPrev : Nat)
    (hX : uX < 256) (hY : uY < 256) (hZ : uZ < 256)
    (hZw : uZ = if useCurr then zPrev + 1 else zPrev)
    (h : addVertexB useCurr uX uY uZ mat f1 f2 f3 cAO s = .ok (i, s'))
    (hinv : extStateInv s zPrev) : extStateInv s' zPrev := by
  obtain ⟨hprev, hcurr, hrange, hgood⟩ := hinv
  cases useCurr with
  | false =>
      have hZw' : zPrev = uZ := by simpa using hZw.symm
      subst hZw'
      simp only [addVertexB, addVertexCol, Bool.false_eq_true, if_false,
        Nat.mod_eq_of_lt hX, Nat.mod_eq_of_lt hY, Nat.mod_eq_of_lt hZ] at h
      cases hp : probeSlots (uX, uY, zPrev) mat
          (vertexAmbientOcclusion (cAO f1) (cAO f2) (cAO f3)) s.mesh
          (s.prevSlice (uX, uY)) with
      | error e => rw [hp] at h; exact absurd h (by simp)
      | ok r =>
          obtain ⟨i', col', mesh'⟩ := r
          rw [hp] at h
          simp only [Except.ok.injEq, Prod.mk.injEq] at h
          obtain ⟨-, hs'⟩ := h
          subst hs'
          have hcol := hprev uX uY hX hY
          obtain ⟨hcol', hmesh'⟩ := colInv_probe hcol hp
          refine ⟨fun X Y hXb hYb => ?_, fun X Y hXb hYb => ?_, ?_,
            fun p hp3 => ?_⟩
          · show colInv (if ((X, Y) : Nat × Nat) = (uX, uY) then col'
              else s.prevSlice (X, Y)) mesh' (X, Y, zPrev)
            by_cases hxy : ((X, Y) : Nat × Nat) = (uX, uY)
            · rw [if_pos hxy]
              obtain ⟨hX1, hY1⟩ := Prod.mk.injEq X Y uX uY ▸ hxy
              subst hX1; subst hY1
              exact hcol'
            · rw [if_neg hxy]
              rcases hmesh' with hsame | hext
              · rw [hsame]; exact hprev X Y hXb hYb
              · rw [hext]
                refine colInv_extend_other (hprev X Y hXb hYb) ?_
                intro hpe
                simp only [Prod.mk.injEq] at hpe
                exact hxy (by simp [hpe.1, hpe.2.1])
          · show colInv (s.currSlice (X, Y)) mesh' (X, Y, zPrev + 1)
            rcases hmesh' with hsame | hext
            · rw [hsame]; exact hcurr X Y hXb hYb
            · rw [hext]
              refine colInv_extend_other (hcurr X Y hXb hYb) ?_
              intro hpe
              simp only [Prod.mk.injEq] at hpe
              omega
          · show ∀ v ∈ mesh', _
            rcases hmesh' with hsame | hext
            · rw [hsame]; exact hrange
            · rw [hext]
              intro v hv
              rcases List.mem_append.mp hv with hv | hv
              · exact hrange v hv
              · rw [List.mem_singleton] at hv
                subst hv
                refine ⟨hX, hY, ?_⟩
                simp only [Bool.false_eq_true, if_false, if_true]
                omega
          · show goodPosition mesh' p
            rcases hmesh' with hsame | hext
            · rw [hsame]; exact hgood p hp3
            · rw [hext]
              refine goodPosition_extend (hgood p hp3) ?_
              intro hpe
              rw [← hpe] at hp3
              simp only at hp3
              omega
  | true =>
      have hZw' : uZ = zPrev + 1 := by simpa using hZw
      subst hZw'
      simp only [addVertexB, addVertexCol, if_true,
        Nat.mod_eq_of_lt hX, Nat.mod_eq_of_lt hY, Nat.mod_eq_of_lt hZ] at h
      cases hp : probeSlots (uX, uY, zPrev + 1) mat
          (vertexAmbientOcclusion (cAO f1) (cAO f2) (cAO f3)) s.mesh
          (s.currSlice (uX, uY)) with
      | error e => rw [hp] at h; exact absurd h (by simp)
      | ok r =>
          obtain ⟨i', col', mesh'⟩ := r
          rw [hp] at h
          simp only [Except.ok.injEq, Prod.mk.injEq] at h
          obtain ⟨-, hs'⟩ := h
          subst hs'
          have hcol := hcurr uX uY hX hY
          obtain ⟨hcol', hmesh'⟩ := colInv_probe hcol hp
          refine ⟨fun X Y hXb hYb => ?_, fun X Y hXb hYb => ?_, ?_,
            fun p hp3 => ?_⟩
          · show colInv (s.prevSlice (X, Y)) mesh' (X, Y, zPrev)
            rcases hmesh' with hsame | hext
            · rw [hsame]; exact hprev X Y hXb hYb
            · rw [hext]
              refine colInv_extend_other (hprev X Y hXb hYb) ?_
              intro hpe
              simp only [Prod.mk.injEq] at hpe
              omega
          · show colInv (if ((X, Y) : Nat × Nat) = (uX, uY) then col'
              else s.currSlice (X, Y)) mesh' (X, Y, zPrev + 1)
            by_cases hxy : ((X, Y) : Nat × Nat) = (uX, uY)
            · rw [if_pos hxy]
              obtain ⟨hX1, hY1⟩ := Prod.mk.injEq X Y uX uY ▸ hxy
              subst hX1; subst hY1
              exact hcol'
            · rw [if_neg hxy]
              rcases hmesh' with hsame | hext
              · rw [hsame]; exact hcurr X Y hXb hYb
              · rw [hext]
                refine colInv_extend_other (hcurr X Y hXb hYb) ?_
                intro hpe
                simp only [Prod.mk.injEq] at hpe
                exact hxy (by simp [hpe.1, hpe.2.1])
          · show ∀ v ∈ mesh', _
            rcases hmesh' with hsame | hext
            · rw [hsame]; exact hrange
            · rw [hext]
              intro v hv
              rcases List.mem_append.mp hv with hv | hv
              · exact hrange v hv
              · rw [List.mem_singleton] at hv
                subst hv
                refine ⟨hX, hY, ?_⟩
                simp only [Bool.false_eq_true, if_false, if_true]
                omega
          · show goodPosition mesh' p
            rcases hmesh' with hsame | hext
            · rw [hsame]; exact hgood p hp3
            · rw [hext]
              refine goodPosition_extend (hgood p hp3) ?_
              intro hpe
              rw [← hpe] at hp3
              simp only at hp3
              omega

theorem exceptBind_ok {E A B : Type} {e : Except E A} {f : A → Except E B}
    {b : B} (h : e >>= f = .ok b) : ∃ a, e = .ok a ∧ f a = .ok b := by
  cases e with
  | error err => exact Except.noConfusion h
  | ok a => exact ⟨a, rfl, h⟩

theorem addFourVertices_inv (mat : V) (cAO : V → Bool)
    (c0 c1 c2 c3 : VertCall V) (s : ExtState V)
    (i0 i1 i2 i3 : Nat) (s' : ExtState V) (zPrev : Nat)
    (h0 : vertCallOk c0 zPrev) (h1 : vertCallOk c1 zPrev)
    (h2 : vertCallOk c2 zPrev) (h3 : vertCallOk c3 zPrev)
    (h : addFourVertices mat cAO c0 c1 c2 c3 s = .ok (i0, i1, i2, i3, s'))
    (hinv : extStateInv s zPrev) : extStateInv s' zPrev := by
  unfold addFourVertices at h
  obtain ⟨⟨j0, t0⟩, ha0, h⟩ := exceptBind_ok h
  have hi0 := addVertexB_inv c0.useCurr c0.uX c0.uY c0.uZ mat c0.face1
    c0.face2 c0.corner cAO s j0 t0 zPrev h0.1 h0.2.1 h0.2.2.1 h0.2.2.2
    ha0 hinv
  obtain ⟨⟨j1, t1⟩, ha1, h⟩ := exceptBind_ok h
  have hi1 := addVertexB_inv c1.useCurr c1.uX c1.uY c1.uZ mat c1.face1
    c1.face2 c1.corner cAO t0 j1 t1 zPrev h1.1 h1.2.1 h1.2.2.1 h1.2.2.2
    ha1 hi0
  obtain ⟨⟨j2, t2⟩, ha2, h⟩ := exceptBind_ok h
  have hi2 := addVertexB_inv c2.useCurr c2.uX c2.uY c2.uZ mat c2.face1
    c2.face2 c2.corner cAO t1 j2 t2 zPrev h2.1 h2.2.1 h2.2.2.1 h2.2.2.2
    ha2 hi1
  obtain ⟨⟨j3, t3⟩, ha3, h⟩ := exceptBind_ok h
  have hi3 := addVertexB_inv c3.useCurr c3.uX c3.uY c3.uZ mat c3.face1
    c3.face2 c3.corner cAO t2 j3 t3 zPrev h3.1 h3.2.1 h3.2.2.1 h3.2.2.2
    ha3 hi2
  have hs := Except.ok.inj h
  simp only [Prod.mk.injEq] at hs
  exact hs.2.2.2.2 ▸ hi3

theorem pushQuad_inv (face : Fin 6) (slice : Nat) (q : Quad) (s : ExtState V)
    (zPrev : Nat) (hinv : extStateInv s zPrev) :
    extStateInv (pushQuad face slice q s) zPrev := hinv

/-- Well-formedness of a face block: all four `addVertex` calls are in range
and aimed at the right slice buffer. -/
def faceSpecOk (fs : FaceSpec V) (zPrev : Nat) : Prop :=
  vertCallOk fs.c0 zPrev ∧ vertCallOk fs.c1 zPrev ∧
    vertCallOk fs.c2 zPrev ∧ vertCallOk fs.c3 zPrev

theorem emitFace_inv (cAO : V → Bool) (fs : FaceSpec V) (s s' : ExtState V)
    (zPrev : Nat) (hok : faceSpecOk fs zPrev)
    (h : emitFace cAO fs s = .ok s') (hinv : extStateInv s zPrev) :
    extStateInv s' zPrev := by
  unfold emitFace at h
  cases hm : fs.materialQ with
  | none =>
      rw [hm] at h
      exact (Except.ok.inj h) ▸ hinv
  | some material =>
      rw [hm] at h
      obtain ⟨⟨i0, i1, i2, i3, s1⟩, ha, hcont⟩ := exceptBind_ok h
      have hq := Except.ok.inj hcont
      subst hq
      exact pushQuad_inv fs.face fs.slice (fs.mkQuad i0 i1 i2 i3) s1 zPrev
        (addFourVertices_inv material cAO fs.c0 fs.c1 fs.c2 fs.c3 s
          i0 i1 i2 i3 s1 zPrev hok.1 hok.2.1 hok.2.2.1 hok.2.2.2 ha hinv)

theorem emitFaces_inv (cAO : V → Bool) :
    ∀ (l : List (FaceSpec V)) (s s' : ExtState V) (zPrev : Nat),
      (∀ fs ∈ l, faceSpecOk fs zPrev) →
      emitFaces cAO l s = .ok s' → extStateInv s zPrev →
      extStateInv s' zPrev := by
  intro l
  induction l with
  | nil =>
      intro s s' zPrev _ h hi
      simp only [emitFaces, Except.ok.injEq] at h
      exact h ▸ hi
  | cons fs rest ih =>
      intro s s' zPrev hok h hi
      simp only [emitFaces] at h
      cases he : emitFace cAO fs s with
      | error e =>
          rw [he] at h
          exact Except.noConfusion h
      | ok t =>
          rw [he] at h
          exact ih t s' zPrev
            (fun g hg => hok g (List.mem_cons_of_mem fs hg)) h
            (emitFace_inv cAO fs s t zPrev
              (hok fs (List.mem_cons_self fs rest)) he hi)

theorem processVoxel_inv (vol : Int → Int → Int → V)
    (isQuadNeeded : V → V → Option V) (cAO : V → Bool) (x y z : Int)
    (regX regY regZ : Nat) (s s' : ExtState V)
    (hXb : regX + 1 < 256) (hYb : regY + 1 < 256) (hZb : regZ + 1 < 256)
    (h : processVoxel vol isQuadNeeded cAO x y z regX regY regZ s = .ok s')
    (hinv : extStateInv s regZ) : extStateInv s' regZ := by
  simp only [processVoxel] at h
  refine emitFaces_inv cAO _ s s' regZ ?_ h hinv
  intro fs hfs
  simp only [List.mem_cons, List.not_mem_nil, or_false] at hfs
  rcases hfs with rfl | rfl | rfl | rfl | rfl | rfl <;>
    (simp only [faceSpecOk, vertCallOk, Bool.false_eq_true, if_false,
       if_true, and_true]
     omega)

theorem loopM_inv (f : Nat → ExtState V → Except SlotError (ExtState V))
    (P : ExtState V → Prop) :
    ∀ (l : List Nat) (s s' : ExtState V),
      (∀ i ∈ l, ∀ t t', f i t = .ok t' → P t → P t') →
      loopM f l s = .ok s' → P s → P s' := by
  intro l
  induction l with
  | nil =>
      intro s s' _ h hp
      simp only [loopM, Except.ok.injEq] at h
      exact h ▸ hp
  | cons i rest ih =>
      intro s s' hstep h hp
      simp only [loopM] at h
      cases hf : f i s with
      | error e =>
          rw [hf] at h
          exact Except.noConfusion h
      | ok t =>
          rw [hf] at h
          exact ih t s'
            (fun j hj => hstep j (List.mem_cons_of_mem i hj)) h
            (hstep i (List.mem_cons_self i rest) s t hf hp)

theorem filter_eq_nil_of_none {mesh : List (CubicVertex V)}
    {p : Nat × Nat × Nat} (h : ∀ v ∈ mesh, v.encodedPosition ≠ p) :
    mesh.filter (fun v => decide (v.encodedPosition = p)) = [] := by
  rw [List.filter_eq_nil_iff]
  intro v hv
  simpa using h v hv

theorem colInv_empty {mesh : List (CubicVertex V)} {p : Nat × Nat × Nat}
    (h : mesh.filter (fun v => decide (v.encodedPosition = p)) = []) :
    colInv (List.replicate MaxVerticesPerPosition none) mesh p :=
  ⟨[], by simp [MaxVerticesPerPosition], by simp, by simp [h],
    List.Pairwise.nil⟩

theorem swapSlices_inv (s : ExtState V) (zPrev : Nat)
    (hinv : extStateInv s zPrev) : extStateInv (swapSlices s) (zPrev + 1) := by
  obtain ⟨hprev, hcurr, hrange, hgood⟩ := hinv
  refine ⟨fun X Y hX hY => hcurr X Y hX hY, fun X Y hX hY => ?_, ?_, ?_⟩
  · refine colInv_empty (filter_eq_nil_of_none ?_)
    intro v hv hpe
    have h2 := (hrange v hv).2.2
    rw [hpe] at h2
    simp only at h2
    omega
  · exact fun v hv => ⟨(hrange v hv).1, (hrange v hv).2.1,
      by have := (hrange v hv).2.2; omega⟩
  · intro p hp
    by_cases hz : p.2.2 < zPrev
    · exact hgood p hz
    · have hpz : p.2.2 = zPrev := by omega
      by_cases hXY : p.1 < 256 ∧ p.2.1 < 256
      · have hcol := hprev p.1 p.2.1 hXY.1 hXY.2
        have hpe : p = (p.1, p.2.1, zPrev) := by rw [← hpz]
        rw [hpe]
        exact goodPosition_of_colInv hcol
      · refine goodPosition_of_filter_nil (filter_eq_nil_of_none ?_)
        intro v hv hpe2
        have h1 := (hrange v hv).1
        have h2 := (hrange v hv).2.1
        rw [hpe2] at h1 h2
        exact hXY ⟨h1, h2⟩

theorem initState_inv (w h d : Nat) : extStateInv (initState V w h d) 0 := by
  refine ⟨fun X Y _ _ => colInv_empty rfl, fun X Y _ _ => colInv_empty rfl,
    ?_, ?_⟩
  · intro v hv
    exact absurd hv (List.not_mem_nil v)
  · intro p hp
    omega

theorem loopM_range_inv (body : Nat → ExtState V → Except SlotError (ExtState V))
    (N : Nat)
    (hbody : ∀ k t t', k < N → body k t = .ok t' →
      extStateInv t k → extStateInv t' (k + 1)) :
    ∀ (n j : Nat), j + n ≤ N → ∀ (s s' : ExtState V),
      loopM body (List.range' j n) s = .ok s' → extStateInv s j →
      extStateInv s' (j + n) := by
  intro n
  induction n with
  | zero =>
      intro j _ s s' hl hi
      rw [show List.range' j 0 = ([] : List Nat) from rfl] at hl
      simp only [loopM, Except.ok.injEq] at hl
      exact hl ▸ hi
  | succ n ih =>
      intro j hjn s s' hl hi
      rw [show List.range' j (n + 1) = j :: List.range' (j + 1) n from rfl]
        at hl
      simp only [loopM] at hl
      cases hb : body j s with
      | error e =>
          rw [hb] at hl
          exact Except.noConfusion hl
      | ok t =>
          rw [hb] at hl
          have hit := hbody j s t (by omega) hb hi
          have hres := ih (j + 1) (by omega) t s' hl hit
          rw [show j + (n + 1) = j + 1 + n from by omega]
          exact hres

theorem extractCore_inv (vol : Int → Int → Int → V) (region : Region)
    (isQuadNeeded : V → V → Option V) (cAO : V → Bool)
    (w h d : Nat) (s : ExtState V)
    (hwb : w ≤ 255) (hhb : h ≤ 255) (hdb : d ≤ 255)
    (hcore : extractCore vol region isQuadNeeded cAO w h d = .ok s) :
    extStateInv s d := by
  unfold extractCore at hcore
  rw [show List.range d = List.range' 0 d from List.range_eq_range' d] at hcore
  have hbody : ∀ k t t', k < d →
      (match loopM (fun regY u => loopM (fun regX u' =>
          processVoxel vol isQuadNeeded cAO
            (region.lowerX + regX) (region.lowerY + regY)
            (region.lowerZ + k) regX regY k u')
          (List.range w) u) (List.range h) t with
        | Except.error e => (Except.error e : Except SlotError (ExtState V))
        | Except.ok u => Except.ok (swapSlices u)) = Except.ok t' →
      extStateInv t k → extStateInv t' (k + 1) := by
    intro k t t' hk hb hib
    cases hin : loopM (fun regY u => loopM (fun regX u' =>
        processVoxel vol isQuadNeeded cAO
          (region.lowerX + regX) (region.lowerY + regY)
          (region.lowerZ + k) regX regY k u')
        (List.range w) u) (List.range h) t with
    | error e =>
        rw [hin] at hb
        exact Except.noConfusion hb
    | ok u =>
        rw [hin] at hb
        have ht' := Except.ok.inj hb
        refine ht' ▸ swapSlices_inv u k ?_
        refine loopM_inv _ (fun st => extStateInv st k) (List.range h) t u
          ?_ hin hib
        intro regY hregY u1 u2 hloop hi1
        refine loopM_inv _ (fun st => extStateInv st k) (List.range w) u1 u2
          ?_ hloop hi1
        intro regX hregX u3 u4 hpv hi3
        have hXw : regX < w := List.mem_range.mp hregX
        have hYh : regY < h := List.mem_range.mp hregY
        exact processVoxel_inv vol isQuadNeeded cAO _ _ _ regX regY k u3 u4
          (by omega) (by omega) (by omega) hpv hi3
  have hmain := loopM_range_inv _ d hbody d 0 (by omega)
    (initState V w h d) s hcore (initState_inv w h d)
  simpa using hmain

theorem extStateInv_good {s : ExtState V} {zPrev : Nat}
    (hinv : extStateInv s zPrev) :
    ∀ p : Nat × Nat × Nat, goodPosition s.mesh p := by
  obtain ⟨hprev, hcurr, hrange, hgood⟩ := hinv
  intro p
  by_cases hz : p.2.2 < zPrev
  · exact hgood p hz
  · by_cases hXY : p.1 < 256 ∧ p.2.1 < 256
    · by_cases hz1 : p.2.2 = zPrev
      · have hcol := hprev p.1 p.2.1 hXY.1 hXY.2
        have hpe : p = (p.1, p.2.1, zPrev) := by rw [← hz1]
        rw [hpe]
        exact goodPosition_of_colInv hcol
      · by_cases hz2 : p.2.2 = zPrev + 1
        · have hcol := hcurr p.1 p.2.1 hXY.1 hXY.2
          have hpe : p = (p.1, p.2.1, zPrev + 1) := by rw [← hz2]
          rw [hpe]
          exact goodPosition_of_colInv hcol
        · refine goodPosition_of_filter_nil (filter_eq_nil_of_none ?_)
          intro v hv hpe
          have h3 := (hrange v hv).2.2
          rw [hpe] at h3
          omega
    · refine goodPosition_of_filter_nil (filter_eq_nil_of_none ?_)
      intro v hv hpe
      have h1 := (hrange v hv).1
      have h2 := (hrange v hv).2.1
      rw [hpe] at h1 h2
      exact hXY ⟨h1, h2⟩

theorem keepUsed_sublist {A : Type} (idx : List Nat) :
    ∀ (i : Nat) (vs : List A), List.Sublist (keepUsed idx i vs) vs := by
  intro i vs
  induction vs generalizing i with
  | nil => exact List.Sublist.refl []
  | cons v rest ih =>
      unfold keepUsed
      by_cases hmem : i ∈ idx
      · rw [if_pos hmem]
        exact (ih (i + 1)).cons₂ v
      · rw [if_neg hmem]
        exact (ih (i + 1)).cons v

theorem goodPosition_sublist {l1 l2 : List (CubicVertex V)}
    (hsub : List.Sublist l2 l1) {p : Nat × Nat × Nat}
    (h : goodPosition l1 p) : goodPosition l2 p := by
  have hf := hsub.filter (fun v => decide (v.encodedPosition = p))
  exact ⟨le_trans hf.length_le h.1, h.2.sublist hf⟩

end DedupInvariant

/-- C5: in every mesh returned by the cubic extractor, at most 8 vertices
(`MaxVerticesPerPosition`) share any one `encodedPosition`, and any two
vertices with equal `encodedPosition` differ in their
`(data, ambientOcclusion)` pair — the slot probing of `addVertex` reuses a
slot whenever material and ambient occlusion both match, so a slice-buffer
column never stores two attribute-equal vertices, and the final
`removeUnusedVertices` only deletes vertices. -/
theorem c5_vertex_dedup {V : Type} [DecidableEq V] [Inhabited V]
    (vol : Int → Int → Int → V) (region : Region)
    (isQuadNeeded : V → V → Option V) (contributeToAO : V → Bool)
    (bMergeQuads : Bool) (m : Mesh V)
    (h : extractCubicMeshCustom vol region isQuadNeeded contributeToAO
      bMergeQuads = .ok m) :
    ∀ p : Nat × Nat × Nat, goodPosition m.vertices p := by
  unfold extractCubicMeshCustom extractCubicPipeline
    maxReionDimensionInVoxels at h
  by_cases hw : region.getWidthInVoxels > 255
  · rw [if_pos hw] at h
    exact absurd h (by simp [Except.map])
  rw [if_neg hw] at h
  by_cases hh : region.getHeightInVoxels > 255
  · rw [if_pos hh] at h
    exact absurd h (by simp [Except.map])
  rw [if_neg hh] at h
  by_cases hd : region.getDepthInVoxels > 255
  · rw [if_pos hd] at h
    exact absurd h (by simp [Except.map])
  rw [if_neg hd] at h
  cases hcore : extractCore vol region isQuadNeeded contributeToAO
      region.getWidthInVoxels.toNat region.getHeightInVoxels.toNat
      region.getDepthInVoxels.toNat with
  | error e =>
      rw [hcore] at h
      exact absurd h (by simp [Except.map])
  | ok st =>
      rw [hcore] at h
      simp only [removeUnusedVertices, Except.map, Except.ok.injEq] at h
      have hinv := extractCore_inv vol region isQuadNeeded contributeToAO
        _ _ _ st (by omega) (by omega) (by omega) hcore
      have hgood := extStateInv_good hinv
      intro p
      rw [← h]
      exact goodPosition_sublist (keepUsed_sublist _ 0 st.mesh) (hgood p)

/-- C5 witness: the mesh of the single-voxel extraction observes the dedup
property at the shared corner (1, 1, 1). -/
theorem c5_vertex_dedup_witness :
    goodPosition
      ((extractCubicMeshCustom singleVoxelVolume region3 solidIsQuadNeeded
          id true).toOption.getD ⟨[], [], (0, 0, 0)⟩).vertices (1, 1, 1) :=
  c5_vertex_dedup singleVoxelVolume region3 solidIsQuadNeeded id true
    ((extractCubicMeshCustom singleVoxelVolume region3 solidIsQuadNeeded
        id true).toOption.getD ⟨[], [], (0, 0, 0)⟩)
    (by rfl) (1, 1, 1)

/- ### The mesh decimator (`MeshDecimator.inl`) -/

/-- Exact-rational 3D vector standing for the decimator's `Vector3DFloat`
positions and normals; the float arithmetic of the source (subtraction, cross
product, dot product, squared length) is carried out exactly. -/
structure Vec3 where
  x : ℚ
  y : ℚ
  z : ℚ
  deriving DecidableEq, Repr

/-- Componentwise subtraction. -/
def Vec3.sub (a b : Vec3) : Vec3 := ⟨a.x - b.x, a.y - b.y, a.z - b.z⟩

/-- Componentwise addition. -/
def Vec3.add (a b : Vec3) : Vec3 := ⟨a.x + b.x, a.y + b.y, a.z + b.z⟩

/-- Dot product. -/
def Vec3.dot (a b : Vec3) : ℚ := a.x * b.x + a.y * b.y + a.z * b.z

/-- Cross product. -/
def Vec3.cross (a b : Vec3) : Vec3 :=
  ⟨a.y * b.z - a.z * b.y, a.z * b.x - a.x * b.z, a.x * b.y - a.y * b.x⟩

/-- `lengthSquared`. -/
def Vec3.lengthSquared (a : Vec3) : ℚ := a.dot a

/-- The zero vector. -/
def Vec3.zero : Vec3 := ⟨0, 0, 0⟩

/-- The `PositionMaterial` vertex payload (fields behind `getPosition` and
`getMaterial`). -/
structure PMVertex where
  position : Vec3
  material : Nat
  deriving DecidableEq, Repr

instance : Inhabited PMVertex := ⟨⟨Vec3.zero, 0⟩⟩

/-- The decimator's input mesh view: `m_vecVertices`,
`m_vecTriangleIndices`, and the originating region `m_Region` (as the two
float corners the `containsPoint` test needs). -/
structure DecMesh where
  vertices : List PMVertex
  triangleIndices : List Nat
  regionLower : Vec3
  regionUpper : Vec3

/-- The `MeshDecimator` object during one decimation pass: the mesh plus the
side structures the pass prologue fills in (`hasDuplicate`, `materialKey`,
`trianglesUsingVertex`, `noOfDifferentNormals`) and the per-pass collapse
bookkeeping (`vertexMapper`, `vertexLocked`). -/
structure Decimator where
  vertices : List PMVertex
  triangleIndices : List Nat
  regionLower : Vec3
  regionUpper : Vec3
  hasDuplicate : Nat → Bool
  materialKey : Nat → Nat
  trianglesUsingVertex : Nat → List Nat
  noOfDifferentNormals : Nat → Nat
  vertexMapper : Nat → Nat
  vertexLocked : Nat → Bool

/-- The `(outerCt, innerCt)` pairs of the duplicate-detection double loop:
`outerCt` over `[0, n-1)`, `innerCt` over `(outerCt, n)`. -/
def dupPairs (n : Nat) : List (Nat × Nat) :=
  (List.range (n - 1)).flatMap fun o =>
    (List.range (n - (o + 1))).map fun k => (o, o + 1 + k)

/-- Whether the duplicate-detection loop marks the pair: squared distance of
the two positions below `0.001f` (taken as the exact rational 1/1000). -/
def closePair (verts : List PMVertex) (o i : Nat) : Bool :=
  decide (((verts.getD i default).position.sub
    (verts.getD o default).position).lengthSquared < 1 / 1000)

/-- The body of the duplicate-detection double loop: mark both ends of every
close pair. -/
def applyDupMarks (verts : List PMVertex) :
    List (Nat × Nat) → (Nat → Bool) → (Nat → Bool)
  | [], f => f
  | (o, i) :: rest, f =>
      applyDupMarks verts rest
        (if closePair verts o i then
          fun j => if j = i || j = o then true else f j
        else f)

/-- `hasDuplicate` as computed at the top of `performDecimationPass`
(lines 60-73). -/
def computeHasDuplicate (verts : List PMVertex) : Nat → Bool :=
  applyDupMarks verts (dupPairs verts.length) (fun _ => false)

/-- `materialKey` (lines 85-96): per referenced vertex, the key is shifted
left a byte and or-ed with the material for every index-buffer occurrence
(32-bit truncation written as `% 2^32`; the consuming checks in
`canCollapseEdge` are commented out in the source, so the key is dead state). -/
def computeMaterialKeyAux (verts : List PMVertex) :
    List Nat → (Nat → Nat) → (Nat → Nat)
  | [], f => f
  | v :: rest, f =>
      computeMaterialKeyAux verts rest
        (fun j => if j = v then
          (f v * 256 + (verts.getD v default).material % 256) % 4294967296
        else f j)

/-- `materialKey` of the pass prologue. -/
def computeMaterialKey (verts : List PMVertex) (idx : List Nat) : Nat → Nat :=
  computeMaterialKeyAux verts idx (fun _ => 0)

/-- `trianglesUsingVertex` (lines 102-109): for each position `ct` of the
index buffer, append triangle `ct / 3` to the list of the vertex found there. -/
def computeTUVAux : List Nat → Nat → (Nat → List Nat) → (Nat → List Nat)
  | [], _, f => f
  | v :: rest, ct, f =>
      computeTUVAux rest (ct + 1)
        (fun j => if j = v then f v ++ [ct / 3] else f j)

/-- `trianglesUsingVertex` of the pass prologue. -/
def computeTrianglesUsingVertex (idx : List Nat) : Nat → List Nat :=
  computeTUVAux idx 0 (fun _ => [])

/-- The uncorrected face normal of triangle `t` (lines 148-162):
`(v1-v0) × (v2-v0)`. -/
def triNormal (verts : List PMVertex) (idx : List Nat) (t : Nat) : Vec3 :=
  let p0 := (verts.getD (idx.getD (t * 3) 0) default).position
  let p1 := (verts.getD (idx.getD (t * 3 + 1) 0) default).position
  let p2 := (verts.getD (idx.getD (t * 3 + 2) 0) default).position
  (p1.sub p0).cross (p2.sub p0)

/-- `noOfDifferentNormals` (lines 164-186): the number of components of the
summed face normals of the triangles using the vertex whose absolute value
exceeds `0.001`. -/
def computeNoOfDifferentNormals (verts : List PMVertex) (idx : List Nat)
    (tuv : Nat → List Nat) : Nat → Nat := fun ct =>
  let sumOfNormals := (tuv ct).foldl
    (fun acc tri => acc.add (triNormal verts idx tri)) Vec3.zero
  (if |sumOfNormals.x| > 1 / 1000 then 1 else 0) +
  (if |sumOfNormals.y| > 1 / 1000 then 1 else 0) +
  (if |sumOfNormals.z| > 1 / 1000 then 1 else 0)

/-- Modelled from the spec: `Region.containsPoint` on a float position — the
region is a closed box, so membership is the componentwise closed-interval
test. -/
def regionContainsPoint (lower upper p : Vec3) : Bool :=
  decide (lower.x ≤ p.x ∧ p.x ≤ upper.x ∧ lower.y ≤ p.y ∧ p.y ≤ upper.y ∧
    lower.z ≤ p.z ∧ p.z ≤ upper.z)

/-- Exact embedding of the face-flip comparison
`OldNormal.normalise(); NewNormal.normalise(); dotProduct < 0.9f`:
for nonzero vectors, `dot(a/|a|, b/|b|) < 9/10` iff `dot a b < 0` or
`100·(dot a b)² < 81·|a|²·|b|²`; normalising a zero vector yields NaN in the
float code, and `NaN < 0.9f` is false, so a zero normal never flips. -/
def normalisedDotBelow09 (a b : Vec3) : Bool :=
  if a.lengthSquared = 0 ∨ b.lengthSquared = 0 then false
  else if a.dot b < 0 then true
  else decide (100 * (a.dot b) ^ 2 < 81 * (a.lengthSquared * b.lengthSquared))

/-- The face-flip rejection loop shared by both `canCollapseEdge` bodies
(lines 562-637 for the `PositionMaterial` variant): any non-degenerate
triangle using `v0` whose normal (through the current `vertexMapper`) would
rotate past `0.9` dot product flips. -/
def collapseCausesFaceFlip (d : Decimator) (v0 v1 : Nat) : Bool :=
  (d.trianglesUsingVertex v0).any fun tri =>
    let v0Old := d.triangleIndices.getD (tri * 3) 0
    let v1Old := d.triangleIndices.getD (tri * 3 + 1) 0
    let v2Old := d.triangleIndices.getD (tri * 3 + 2) 0
    if v0Old = v1Old ∨ v1Old = v2Old ∨ v2Old = v0Old then false
    else
      let v0New := if v0Old = v0 then v1 else v0Old
      let v1New := if v1Old = v0 then v1 else v1Old
      let v2New := if v2Old = v0 then v1 else v2Old
      if v0New = v1New ∨ v1New = v2New ∨ v2New = v0New then false
      else
        let posOf := fun i =>
          (d.vertices.getD (d.vertexMapper i) default).position
        let oldNormal := ((posOf v1Old).sub (posOf v0Old)).cross
          ((posOf v2Old).sub (posOf v1Old))
        let newNormal := ((posOf v1New).sub (posOf v0New)).cross
          ((posOf v2New).sub (posOf v1New))
        normalisedDotBelow09 oldNormal newNormal

/-- Source: `MeshDecimator<PositionMaterial>::canCollapseEdge(v0, v1)`
(lines 500-644): rejects locked endpoints, differing materials, a corner
vertex (`noOfDifferentNormals == 3`), a positional duplicate at `v0`, a `v0`
with more distinct normals than `v1`, a `v0` outside the originating region,
and collapses that would flip a face. -/
def canCollapseEdgePM (d : Decimator) (v0 v1 : Nat) : Bool :=
  if d.vertexLocked v0 || d.vertexLocked v1 then false
  else if ¬ ((d.vertices.getD v0 default).material =
      (d.vertices.getD v1 default).material) then false
  else if d.noOfDifferentNormals v0 = 3 then false
  else if d.hasDuplicate v0 then false
  else if d.noOfDifferentNormals v0 > d.noOfDifferentNormals v1 then false
  else
    let offset := d.regionLower
    let v0Inside := regionContainsPoint d.regionLower d.regionUpper
      ((d.vertices.getD v0 default).position.add offset)
    if ¬ (v0Inside = true) then false
    else if collapseCausesFaceFlip d v0 v1 then false
    else true

/-- The directed edges of the collapse loop (lines 189-214): for each
triangle of the index buffer, its three directed edges in order. -/
def allEdges : List Nat → List (Nat × Nat)
  | a :: b :: c :: rest => (a, b) :: (b, c) :: (c, a) :: allEdges rest
  | _ => []

/-- The edge-collapse loop of `performDecimationPass` (lines 189-214),
generic in the eligibility test `canCollapse` (the source dispatches to one
of the `canCollapseEdge` specialisations): an accepted edge `(v0, v1)` sets
`vertexMapper[v0] = v1` and locks both endpoints; returns the state and the
number of collapsed edges. -/
def runCollapses (canCollapse : Decimator → Nat → Nat → Bool)
    (d : Decimator) : List (Nat × Nat) → Decimator × Nat
  | [] => (d, 0)
  | (v0, v1) :: rest =>
      if canCollapse d v0 v1 then
        let d' := { d with
          vertexMapper := fun i => if i = v0 then v1 else d.vertexMapper i
          vertexLocked := fun i => if i = v0 || i = v1 then true
            else d.vertexLocked i }
        let (d'', c) := runCollapses canCollapse d' rest
        (d'', c + 1)
      else runCollapses canCollapse d rest

/-- The pass-prologue state: side structures computed, `vertexMapper` the
identity, every vertex unlocked. -/
def mkPassState (m : DecMesh) : Decimator where
  vertices := m.vertices
  triangleIndices := m.triangleIndices
  regionLower := m.regionLower
  regionUpper := m.regionUpper
  hasDuplicate := computeHasDuplicate m.vertices
  materialKey := computeMaterialKey m.vertices m.triangleIndices
  trianglesUsingVertex := computeTrianglesUsingVertex m.triangleIndices
  noOfDifferentNormals := computeNoOfDifferentNormals m.vertices
    m.triangleIndices (computeTrianglesUsingVertex m.triangleIndices)
  vertexMapper := fun i => i
  vertexLocked := fun _ => false

/-- Source: `MeshDecimator::performDecimationPass` — prologue, collapse
loop, and (when anything collapsed) the single-level index rewrite
`i := vertexMapper[i]`. -/
def performDecimationPass (canCollapse : Decimator → Nat → Nat → Bool)
    (m : DecMesh) : DecMesh × Nat :=
  match runCollapses canCollapse (mkPassState m) (allEdges m.triangleIndices) with
  | (d', count) =>
      ({ m with triangleIndices := if count > 0 then
          m.triangleIndices.map d'.vertexMapper else m.triangleIndices }, count)

/-- Modelled from the spec: `removeDegenerateTris` — drop every triangle
whose three indices are not pairwise distinct. -/
def removeDegenerateTris : List Nat → List Nat
  | a :: b :: c :: rest =>
      if a ≠ b ∧ b ≠ c ∧ c ≠ a then a :: b :: c :: removeDegenerateTris rest
      else removeDegenerateTris rest
  | other => other

/-- One iteration of the `execute` do-while body: a decimation pass followed
by `removeDegenerateTris` and `removeUnusedVertices`. -/
def decimationStep (canCollapse : Decimator → Nat → Nat → Bool)
    (m : DecMesh) : DecMesh × Nat :=
  let (m', count) := performDecimationPass canCollapse m
  let idx2 := removeDegenerateTris m'.triangleIndices
  let (verts3, idx3) := removeUnusedVertices m'.vertices idx2
  ({ m' with vertices := verts3, triangleIndices := idx3 }, count)

/-- `k` iterations of the `execute` loop body. -/
def iterSteps (canCollapse : Decimator → Nat → Nat → Bool) :
    Nat → DecMesh → DecMesh
  | 0, m => m
  | k + 1, m => iterSteps canCollapse k (decimationStep canCollapse m).1

section CanCollapseSpec

/-- Everything that must hold when `canCollapseEdgePM` accepts an edge: each
rejection test of the source evaluated negatively. -/
theorem canCollapseEdgePM_true_elim (d : Decimator) (v0 v1 : Nat)
    (h : canCollapseEdgePM d v0 v1 = true) :
    d.vertexLocked v0 = false ∧ d.vertexLocked v1 = false ∧
    (d.vertices.getD v0 default).material =
      (d.vertices.getD v1 default).material ∧
    d.noOfDifferentNormals v0 ≠ 3 ∧
    d.hasDuplicate v0 = false ∧
    ¬ (d.noOfDifferentNormals v0 > d.noOfDifferentNormals v1) ∧
    regionContainsPoint d.regionLower d.regionUpper
      ((d.vertices.getD v0 default).position.add d.regionLower) = true ∧
    collapseCausesFaceFlip d v0 v1 = false := by
  unfold canCollapseEdgePM at h
  by_cases h1 : (d.vertexLocked v0 || d.vertexLocked v1) = true
  · rw [if_pos h1] at h; exact absurd h (by simp)
  · rw [if_neg h1] at h
    by_cases h2 : ¬ ((d.vertices.getD v0 default).material =
        (d.vertices.getD v1 default).material)
    · rw [if_pos h2] at h; exact absurd h (by simp)
    · rw [if_neg h2] at h
      by_cases h3 : d.noOfDifferentNormals v0 = 3
      · rw [if_pos h3] at h; exact absurd h (by simp)
      · rw [if_neg h3] at h
        by_cases h4 : d.hasDuplicate v0 = true
        · rw [if_pos h4] at h; exact absurd h (by simp)
        · rw [if_neg h4] at h
          by_cases h5 : d.noOfDifferentNormals v0 > d.noOfDifferentNormals v1
          · rw [if_pos h5] at h; exact absurd h (by simp)
          · rw [if_neg h5] at h
            by_cases h6 : ¬ (regionContainsPoint d.regionLower d.regionUpper
                ((d.vertices.getD v0 default).position.add d.regionLower) = true)
            · rw [if_pos h6] at h; exact absurd h (by simp)
            · rw [if_neg h6] at h
              by_cases h7 : collapseCausesFaceFlip d v0 v1 = true
              · rw [if_pos h7] at h; exact absurd h (by simp)
              · push_neg at h6
                simp only [Bool.or_eq_true, not_or] at h1
                refine ⟨by simpa using h1.1, by simpa using h1.2,
                  by simpa using h2, h3, by simpa using h4, h5, h6,
                  by simpa using h7⟩

theorem applyDupMarks_monotone (verts : List PMVertex)
    (pairs : List (Nat × Nat)) :
    ∀ (f : Nat → Bool) (j : Nat), f j = true →
      applyDupMarks verts pairs f j = true := by
  induction pairs with
  | nil => intro f j h; exact h
  | cons p rest ih =>
      intro f j h
      obtain ⟨o, i⟩ := p
      simp only [applyDupMarks]
      apply ih
      by_cases hc : closePair verts o i = true
      · rw [if_pos hc]
        by_cases hj : (j = i || j = o) = true
        · simp [hj]
        · simp only [Bool.not_eq_true] at hj
          simp [hj, h]
      · rw [if_neg hc]; exact h

theorem applyDupMarks_mem (verts : List PMVertex) :
    ∀ (pairs : List (Nat × Nat)) (f : Nat → Bool) (o i : Nat),
      (o, i) ∈ pairs → closePair verts o i = true →
      applyDupMarks verts pairs f i = true ∧
        applyDupMarks verts pairs f o = true := by
  intro pairs
  induction pairs with
  | nil => intro f o i hmem; simp at hmem
  | cons p rest ih =>
      intro f o i hmem hclose
      obtain ⟨a, b⟩ := p
      rcases List.mem_cons.mp hmem with heq | hmem'
      · obtain ⟨rfl, rfl⟩ := Prod.mk.injEq o i a b ▸ heq
        simp only [applyDupMarks, if_pos hclose]
        constructor <;> apply applyDupMarks_monotone <;> simp
      · simp only [applyDupMarks]
        exact ih _ o i hmem' hclose

theorem dupPairs_mem (a b n : Nat) (hab : a < b) (hbn : b < n) :
    (a, b) ∈ dupPairs n := by
  unfold dupPairs
  rw [List.mem_flatMap]
  refine ⟨a, List.mem_range.mpr (by omega), ?_⟩
  rw [List.mem_map]
  exact ⟨b - (a + 1), List.mem_range.mpr (by omega), by simp; omega⟩

theorem lengthSquared_sub_comm (x y : Vec3) :
    (x.sub y).lengthSquared = (y.sub x).lengthSquared := by
  simp only [Vec3.sub, Vec3.lengthSquared, Vec3.dot]
  ring

theorem computeHasDuplicate_of_close (verts : List PMVertex) (j v0 : Nat)
    (hj : j < verts.length) (hv0 : v0 < verts.length) (hne : j ≠ v0)
    (hclose : ((verts.getD j default).position.sub
      (verts.getD v0 default).position).lengthSquared < 1 / 1000) :
    computeHasDuplicate verts v0 = true := by
  unfold computeHasDuplicate
  rcases Nat.lt_or_ge j v0 with hlt | hge
  · -- pair (j, v0): the inner index is v0
    have hc : closePair verts j v0 = true := by
      unfold closePair
      rw [lengthSquared_sub_comm] at hclose
      exact decide_eq_true hclose
    exact (applyDupMarks_mem verts (dupPairs verts.length) _ j v0
      (dupPairs_mem j v0 verts.length hlt hv0) hc).1
  · have hlt : v0 < j := by omega
    have hc : closePair verts v0 j = true := by
      unfold closePair
      exact decide_eq_true hclose
    exact (applyDupMarks_mem verts (dupPairs verts.length) _ v0 j
      (dupPairs_mem v0 j verts.length hlt hj) hc).2

/-- C9: the `PositionMaterial` variant of `canCollapseEdge` returns `false`
whenever `noOfDifferentNormals[v0] = 3`, whenever the (offset) position of
`v0` lies outside the originating region, whenever
`noOfDifferentNormals[v0] > noOfDifferentNormals[v1]`, and whenever `v0` has
a positional duplicate within 1e-3 distance of another vertex of the mesh
(the duplicate flags being the ones the pass prologue computes; the code's
threshold `lengthSquared < 0.001` subsumes distance ≤ 1e-3). -/
theorem c9_canCollapseEdgePM_rejections (d : Decimator) (v0 v1 : Nat) :
    (d.noOfDifferentNormals v0 = 3 → canCollapseEdgePM d v0 v1 = false) ∧
    (regionContainsPoint d.regionLower d.regionUpper
        ((d.vertices.getD v0 default).position.add d.regionLower) = false →
      canCollapseEdgePM d v0 v1 = false) ∧
    (d.noOfDifferentNormals v0 > d.noOfDifferentNormals v1 →
      canCollapseEdgePM d v0 v1 = false) ∧
    (d.hasDuplicate = computeHasDuplicate d.vertices →
      ∀ j, j < d.vertices.length → v0 < d.vertices.length → j ≠ v0 →
        ((d.vertices.getD j default).position.sub
          (d.vertices.getD v0 default).position).lengthSquared ≤
            (1 / 1000) ^ 2 →
        canCollapseEdgePM d v0 v1 = false) := by
  refine ⟨?_, ?_, ?_, ?_⟩
  · intro h
    cases hres : canCollapseEdgePM d v0 v1 with
    | false => rfl
    | true => exact absurd h (canCollapseEdgePM_true_elim d v0 v1 hres).2.2.2.1
  · intro h
    cases hres : canCollapseEdgePM d v0 v1 with
    | false => rfl
    | true =>
        have := (canCollapseEdgePM_true_elim d v0 v1 hres).2.2.2.2.2.2.1
        rw [h] at this
        exact absurd this (by simp)
  · intro h
    cases hres : canCollapseEdgePM d v0 v1 with
    | false => rfl
    | true => exact absurd h (canCollapseEdgePM_true_elim d v0 v1 hres).2.2.2.2.2.1
  · intro hdup j hj hv0 hne hdist
    cases hres : canCollapseEdgePM d v0 v1 with
    | false => rfl
    | true =>
        have hfalse := (canCollapseEdgePM_true_elim d v0 v1 hres).2.2.2.2.1
        rw [hdup] at hfalse
        have hclose : ((d.vertices.getD j default).position.sub
            (d.vertices.getD v0 default).position).lengthSquared < 1 / 1000 := by
          calc ((d.vertices.getD j default).position.sub
              (d.vertices.getD v0 default).position).lengthSquared
              ≤ (1 / 1000) ^ 2 := hdist
            _ < 1 / 1000 := by norm_num
        rw [computeHasDuplicate_of_close d.vertices j v0 hj hv0 hne hclose]
          at hfalse
        exact absurd hfalse (by simp)

end CanCollapseSpec

section CollapseLoopSpec

/-- An edge-eligibility test that rejects any edge with a locked endpoint
(both `canCollapseEdge` bodies begin with exactly this test). -/
def locksRespected (cc : Decimator → Nat → Nat → Bool) : Prop :=
  ∀ d v0 v1, d.vertexLocked v0 = true ∨ d.vertexLocked v1 = true →
    cc d v0 v1 = false

theorem canCollapseEdgePM_locksRespected : locksRespected canCollapseEdgePM := by
  intro d v0 v1 h
  unfold canCollapseEdgePM
  rw [if_pos]
  rcases h with h | h <;> simp [h]

/-- The collapse-loop invariant: unlocked vertices map to themselves, every
proper mapping target is locked, the mapper is idempotent, and every proper
mapping was one of the pass's candidate edges. -/
def collapseInv (d : Decimator) (E : List (Nat × Nat)) : Prop :=
  (∀ i, d.vertexLocked i = false → d.vertexMapper i = i) ∧
  (∀ i, d.vertexMapper i ≠ i → d.vertexLocked (d.vertexMapper i) = true) ∧
  (∀ i, d.vertexMapper (d.vertexMapper i) = d.vertexMapper i) ∧
  (∀ i, d.vertexMapper i ≠ i → (i, d.vertexMapper i) ∈ E)

theorem collapseInv_init (d : Decimator) (E : List (Nat × Nat))
    (hm : d.vertexMapper = fun i => i) : collapseInv d E := by
  refine ⟨fun i _ => by rw [hm], fun i hi => absurd (by rw [hm]) hi,
    fun i => by rw [hm], fun i hi => absurd (by rw [hm]) hi⟩

theorem runCollapses_inv (cc : Decimator → Nat → Nat → Bool)
    (hcc : locksRespected cc) (E : List (Nat × Nat)) :
    ∀ (edges : List (Nat × Nat)) (d : Decimator),
      (∀ e ∈ edges, e ∈ E) → collapseInv d E →
      collapseInv (runCollapses cc d edges).1 E := by
  intro edges
  induction edges with
  | nil => intro d _ hinv; exact hinv
  | cons e rest ih =>
      intro d hsub hinv
      obtain ⟨v0, v1⟩ := e
      obtain ⟨hI1, hI2, hI3, hI4⟩ := hinv
      by_cases hc : cc d v0 v1 = true
      · have hl0 : d.vertexLocked v0 = false := by
          by_contra h'
          rw [hcc d v0 v1 (Or.inl (by simpa using h'))] at hc
          exact absurd hc (by simp)
        have hl1 : d.vertexLocked v1 = false := by
          by_contra h'
          rw [hcc d v0 v1 (Or.inr (by simpa using h'))] at hc
          exact absurd hc (by simp)
        have hm0 : d.vertexMapper v0 = v0 := hI1 v0 hl0
        have hm1 : d.vertexMapper v1 = v1 := hI1 v1 hl1
        simp only [runCollapses, if_pos hc]
        set d' : Decimator := { d with
          vertexMapper := fun i => if i = v0 then v1 else d.vertexMapper i
          vertexLocked := fun i => if i = v0 || i = v1 then true
            else d.vertexLocked i } with hd'
        have hinv' : collapseInv d' E := by
          refine ⟨?_, ?_, ?_, ?_⟩
          · intro i hunlocked
            simp only [hd'] at hunlocked ⊢
            by_cases hi0 : i = v0
            · subst hi0; simp at hunlocked
            · by_cases hi1 : i = v1
              · subst hi1; simp at hunlocked
              · simp only [hi0, hi1, decide_False, Bool.or_self,
                  Bool.false_eq_true, if_false, if_neg hi0] at hunlocked ⊢
                exact hI1 i hunlocked
          · intro i hproper
            simp only [hd'] at hproper ⊢
            by_cases hi0 : i = v0
            · subst hi0; simp
            · simp only [if_neg hi0] at hproper ⊢
              have htarget := hI2 i hproper
              by_cases hm0' : d.vertexMapper i = v0
              · simp [hm0']
              · by_cases hm1' : d.vertexMapper i = v1
                · simp [hm1']
                · simp [hm0', hm1', htarget]
          · intro i
            simp only [hd']
            by_cases hi0 : i = v0
            · subst hi0
              simp only [if_pos rfl]
              by_cases h10 : v1 = i
              · simp [h10]
              · simp [h10, hm1]
            · simp only [if_neg hi0]
              by_cases hmv0 : d.vertexMapper i = v0
              · by_cases hii : d.vertexMapper i = i
                · simp [hii, hi0]
                · exfalso
                  have htarget := hI2 i hii
                  rw [hmv0] at htarget
                  rw [hl0] at htarget
                  exact absurd htarget (by simp)
              · simp [hmv0, hI3 i]
          · intro i hproper
            simp only [hd'] at hproper ⊢
            by_cases hi0 : i = v0
            · subst hi0
              simp only [if_pos rfl] at hproper ⊢
              exact hsub _ (by simp)
            · simp only [if_neg hi0] at hproper ⊢
              exact hI4 i hproper
        have hres := ih d' (fun e he => hsub e (List.mem_cons_of_mem _ he)) hinv'
        cases hrun : runCollapses cc d' rest with
        | mk fst snd => simpa [hrun] using hres
      · simp only [runCollapses, if_neg hc]
        exact ih d (fun e he => hsub e (List.mem_cons_of_mem _ he))
          ⟨hI1, hI2, hI3, hI4⟩

/-- Once a vertex is locked, its lock and its mapper entry never change for
the rest of the loop. -/
theorem runCollapses_frozen (cc : Decimator → Nat → Nat → Bool)
    (hcc : locksRespected cc) :
    ∀ (edges : List (Nat × Nat)) (d : Decimator) (i : Nat),
      d.vertexLocked i = true →
      (runCollapses cc d edges).1.vertexMapper i = d.vertexMapper i ∧
      (runCollapses cc d edges).1.vertexLocked i = true := by
  intro edges
  induction edges with
  | nil => intro d i h; exact ⟨rfl, h⟩
  | cons e rest ih =>
      intro d i h
      obtain ⟨v0, v1⟩ := e
      by_cases hc : cc d v0 v1 = true
      · have hiv0 : ¬ i = v0 := by
          intro h'
          subst h'
          rw [hcc d i v1 (Or.inl h)] at hc
          exact absurd hc (by simp)
        simp only [runCollapses, if_pos hc]
        have hstep := ih { d with
          vertexMapper := fun j => if j = v0 then v1 else d.vertexMapper j
          vertexLocked := fun j => if j = v0 || j = v1 then true
            else d.vertexLocked j } i (by
            by_cases hb : (i = v0 || i = v1) = true
            · simp only [if_pos hb]
            · simp only [if_neg hb]; exact h)
        cases hrun : runCollapses cc { d with
          vertexMapper := fun j => if j = v0 then v1 else d.vertexMapper j
          vertexLocked := fun j => if j = v0 || j = v1 then true
            else d.vertexLocked j } rest with
        | mk fst snd =>
            rw [hrun] at hstep
            simpa [hiv0] using hstep
      · simp only [runCollapses, if_neg hc]
        exact ih d i h

end CollapseLoopSpec

section TerminationLemmas

theorem allEdges_mem : ∀ (l : List Nat) (a b : Nat),
    (a, b) ∈ allEdges l → a ∈ l ∧ b ∈ l
  | [], a, b => by simp [allEdges]
  | [x], a, b => by simp [allEdges]
  | [x, y], a, b => by simp [allEdges]
  | x :: y :: z :: rest, a, b => by
      intro hmem
      simp only [allEdges, List.mem_cons] at hmem
      rcases hmem with h | h | h | h
      · obtain ⟨rfl, rfl⟩ := Prod.mk.injEq a b x y ▸ h
        simp
      · obtain ⟨rfl, rfl⟩ := Prod.mk.injEq a b y z ▸ h
        simp
      · obtain ⟨rfl, rfl⟩ := Prod.mk.injEq a b z x ▸ h
        simp
      · have := allEdges_mem rest a b h
        simp [this.1, this.2]

/-- A triangle chunk of the index list with a repeated index (a degenerate
triangle). -/
def hasRepChunk : List Nat → Prop
  | a :: b :: c :: rest => a = b ∨ b = c ∨ c = a ∨ hasRepChunk rest
  | _ => False

theorem hasRepChunk_map (f : Nat → Nat) : ∀ l : List Nat,
    hasRepChunk l → hasRepChunk (l.map f)
  | [] => by simp [hasRepChunk]
  | [a] => by simp [hasRepChunk]
  | [a, b] => by simp [hasRepChunk]
  | a :: b :: c :: rest => by
      intro h
      simp only [hasRepChunk] at h
      simp only [List.map_cons, hasRepChunk]
      rcases h with h | h | h | h
      · exact Or.inl (by rw [h])
      · exact Or.inr (Or.inl (by rw [h]))
      · exact Or.inr (Or.inr (Or.inl (by rw [h])))
      · exact Or.inr (Or.inr (Or.inr (hasRepChunk_map f rest h)))

theorem selfEdge_hasRepChunk : ∀ (l : List Nat) (x : Nat),
    (x, x) ∈ allEdges l → hasRepChunk l
  | [], x => by simp [allEdges]
  | [a], x => by simp [allEdges]
  | [a, b], x => by simp [allEdges]
  | a :: b :: c :: rest, x => by
      intro hmem
      simp only [allEdges, List.mem_cons] at hmem
      simp only [hasRepChunk]
      rcases hmem with h | h | h | h
      · obtain ⟨rfl, rfl⟩ := Prod.mk.injEq x x a b ▸ h
        exact Or.inl rfl
      · obtain ⟨rfl, rfl⟩ := Prod.mk.injEq x x b c ▸ h
        exact Or.inr (Or.inl rfl)
      · obtain ⟨rfl, rfl⟩ := Prod.mk.injEq x x c a ▸ h
        exact Or.inr (Or.inr (Or.inl rfl))
      · exact Or.inr (Or.inr (Or.inr (selfEdge_hasRepChunk rest x h)))

theorem removeDegenerateTris_length_le : ∀ l : List Nat,
    (removeDegenerateTris l).length ≤ l.length
  | [] => by simp [removeDegenerateTris]
  | [a] => by simp [removeDegenerateTris]
  | [a, b] => by simp [removeDegenerateTris]
  | a :: b :: c :: rest => by
      have := removeDegenerateTris_length_le rest
      simp only [removeDegenerateTris]
      split
      · simpa using this
      · simp only [List.length_cons]
        omega

theorem removeDegenerateTris_length_lt : ∀ l : List Nat,
    hasRepChunk l → (removeDegenerateTris l).length < l.length
  | [] => by simp [hasRepChunk]
  | [a] => by simp [hasRepChunk]
  | [a, b] => by simp [hasRepChunk]
  | a :: b :: c :: rest => by
      intro h
      simp only [hasRepChunk] at h
      simp only [removeDegenerateTris]
      split
      · rename_i hkeep
        have hrest : hasRepChunk rest := by tauto
        have := removeDegenerateTris_length_lt rest hrest
        simp only [List.length_cons]
        omega
      · have := removeDegenerateTris_length_le rest
        simp only [List.length_cons]
        omega

theorem removeDegenerateTris_subset : ∀ (l : List Nat) (x : Nat),
    x ∈ removeDegenerateTris l → x ∈ l
  | [], x => by simp [removeDegenerateTris]
  | [a], x => by simp [removeDegenerateTris]
  | [a, b], x => by simp [removeDegenerateTris]
  | a :: b :: c :: rest, x => by
      intro hmem
      simp only [removeDegenerateTris] at hmem
      split at hmem
      · simp only [List.mem_cons] at hmem ⊢
        rcases hmem with h | h | h | h
        · exact Or.inl h
        · exact Or.inr (Or.inl h)
        · exact Or.inr (Or.inr (Or.inl h))
        · exact Or.inr (Or.inr (Or.inr (removeDegenerateTris_subset rest x h)))
      · simp only [List.mem_cons]
        exact Or.inr (Or.inr (Or.inr (removeDegenerateTris_subset rest x hmem)))

theorem removeDegenerateTris_mod3 : ∀ l : List Nat,
    l.length % 3 = 0 → (removeDegenerateTris l).length % 3 = 0
  | [] => by simp [removeDegenerateTris]
  | [a] => by simp
  | [a, b] => by simp
  | a :: b :: c :: rest => by
      intro h
      simp only [List.length_cons] at h
      have hrest : rest.length % 3 = 0 := by omega
      have := removeDegenerateTris_mod3 rest hrest
      simp only [removeDegenerateTris]
      split
      · simp only [List.length_cons]
        omega
      · exact this

theorem keepUsed_length_le {A : Type} (idx : List Nat) :
    ∀ (vs : List A) (i0 : Nat), (keepUsed idx i0 vs).length ≤ vs.length := by
  intro vs
  induction vs with
  | nil => intro i0; simp [keepUsed]
  | cons v rest ih =>
      intro i0
      simp only [keepUsed]
      split
      · simpa using ih (i0 + 1)
      · have := ih (i0 + 1)
        simp only [List.length_cons]
        omega

theorem keepUsed_length_lt {A : Type} (idx : List Nat) :
    ∀ (vs : List A) (i0 p : Nat), p < vs.length → (i0 + p) ∉ idx →
      (keepUsed idx i0 vs).length < vs.length := by
  intro vs
  induction vs with
  | nil => intro i0 p hp; simp at hp
  | cons v rest ih =>
      intro i0 p hp hnot
      simp only [keepUsed]
      cases p with
      | zero =>
          rw [if_neg (by simpa using hnot)]
          have := keepUsed_length_le idx rest (i0 + 1)
          simp only [List.length_cons]
          omega
      | succ q =>
          have hrec := ih (i0 + 1) q (by simpa using hp)
            (by simpa [Nat.add_assoc, Nat.add_comm 1 q] using hnot)
          split
          · simp only [List.length_cons]
            omega
          · have := keepUsed_length_le idx rest (i0 + 1)
            simp only [List.length_cons]
            omega

theorem usedIndices_length_eq {A : Type} (idx : List Nat) :
    ∀ (vs : List A) (i0 : Nat),
      (usedIndices idx i0 vs).length = (keepUsed idx i0 vs).length := by
  intro vs
  induction vs with
  | nil => intro i0; simp [usedIndices, keepUsed]
  | cons v rest ih =>
      intro i0
      simp only [usedIndices, keepUsed]
      split
      · simp [ih (i0 + 1)]
      · exact ih (i0 + 1)

theorem mem_usedIndices {A : Type} (idx : List Nat) :
    ∀ (vs : List A) (i0 j : Nat), j ∈ idx → i0 ≤ j → j < i0 + vs.length →
      j ∈ usedIndices idx i0 vs := by
  intro vs
  induction vs with
  | nil => intro i0 j _ h1 h2; simp at h2; omega
  | cons v rest ih =>
      intro i0 j hj h1 h2
      simp only [usedIndices]
      by_cases hji : j = i0
      · subst hji
        rw [if_pos hj]
        simp
      · have hrec : j ∈ usedIndices idx (i0 + 1) rest := by
          apply ih (i0 + 1) j hj (by omega)
          simp only [List.length_cons] at h2
          omega
        split
        · simp [hrec]
        · exact hrec

theorem posIn_lt_of_mem : ∀ (l : List Nat) (j : Nat), j ∈ l →
    posIn j l < l.length := by
  intro l
  induction l with
  | nil => intro j h; simp at h
  | cons a rest ih =>
      intro j hj
      simp only [posIn]
      split
      · simp
      · rename_i hne
        have : j ∈ rest := by
          rcases List.mem_cons.mp hj with h | h
          · exact absurd h.symm hne
          · exact h
        have := ih j this
        simp only [List.length_cons]
        omega

theorem removeUnusedVertices_valid {A : Type} (verts : List A) (idx : List Nat)
    (h : ∀ j ∈ idx, j < verts.length) :
    ∀ x ∈ (removeUnusedVertices verts idx).2,
      x < (removeUnusedVertices verts idx).1.length := by
  intro x hx
  simp only [removeUnusedVertices, List.mem_map] at hx
  obtain ⟨j, hj, rfl⟩ := hx
  simp only [removeUnusedVertices]
  have hmem : j ∈ usedIndices idx 0 verts :=
    mem_usedIndices idx verts 0 j hj (Nat.zero_le j) (by simpa using h j hj)
  have := posIn_lt_of_mem _ j hmem
  rw [usedIndices_length_eq idx verts 0] at this
  exact this

/-- If the collapse loop accepted at least one edge, some vertex is properly
mapped and locked at the end, or some candidate edge was a self-edge. -/
theorem runCollapses_pos (cc : Decimator → Nat → Nat → Bool)
    (hcc : locksRespected cc) :
    ∀ (edges : List (Nat × Nat)) (d : Decimator),
      (runCollapses cc d edges).2 > 0 →
      (∃ a, (runCollapses cc d edges).1.vertexMapper a ≠ a) ∨
      ∃ e ∈ edges, e.1 = e.2 := by
  intro edges
  induction edges with
  | nil => intro d h; simp [runCollapses] at h
  | cons e rest ih =>
      intro d hpos
      obtain ⟨v0, v1⟩ := e
      by_cases hc : cc d v0 v1 = true
      · by_cases hself : v0 = v1
        · exact Or.inr ⟨(v0, v1), by simp, hself⟩
        · left
          refine ⟨v0, ?_⟩
          have hfrozen := runCollapses_frozen cc hcc rest { d with
            vertexMapper := fun j => if j = v0 then v1 else d.vertexMapper j
            vertexLocked := fun j => if j = v0 || j = v1 then true
              else d.vertexLocked j } v0 (by simp)
          simp only [runCollapses, if_pos hc]
          cases hrun : runCollapses cc { d with
            vertexMapper := fun j => if j = v0 then v1 else d.vertexMapper j
            vertexLocked := fun j => if j = v0 || j = v1 then true
              else d.vertexLocked j } rest with
          | mk d'' c =>
              rw [hrun] at hfrozen
              simp only at hfrozen
              rw [hfrozen.1]
              simpa using Ne.symm hself
      · simp only [runCollapses, if_neg hc] at hpos ⊢
        rcases ih d hpos with h | ⟨e, he, heq⟩
        · exact Or.inl h
        · exact Or.inr ⟨e, List.mem_cons_of_mem _ he, heq⟩

theorem decimationStep_eq (cc : Decimator → Nat → Nat → Bool) (m : DecMesh)
    (d' : Decimator) (count : Nat)
    (hrun : runCollapses cc (mkPassState m) (allEdges m.triangleIndices) =
      (d', count)) :
    decimationStep cc m =
      ({ vertices := keepUsed (removeDegenerateTris (if count > 0 then
            m.triangleIndices.map d'.vertexMapper else m.triangleIndices)) 0
            m.vertices
         triangleIndices := (removeDegenerateTris (if count > 0 then
            m.triangleIndices.map d'.vertexMapper else m.triangleIndices)).map
            (fun j => posIn j (usedIndices (removeDegenerateTris
              (if count > 0 then m.triangleIndices.map d'.vertexMapper
               else m.triangleIndices)) 0 m.vertices))
         regionLower := m.regionLower
         regionUpper := m.regionUpper }, count) := by
  unfold decimationStep performDecimationPass removeUnusedVertices
  rw [hrun]

theorem decimationStep_preserves_valid (cc : Decimator → Nat → Nat → Bool)
    (hcc : locksRespected cc) (m : DecMesh)
    (hvalid : ∀ j ∈ m.triangleIndices, j < m.vertices.length)
    (hmod : m.triangleIndices.length % 3 = 0) :
    (∀ j ∈ (decimationStep cc m).1.triangleIndices,
      j < (decimationStep cc m).1.vertices.length) ∧
    (decimationStep cc m).1.triangleIndices.length % 3 = 0 := by
  cases hrun : runCollapses cc (mkPassState m) (allEdges m.triangleIndices) with
  | mk d' count =>
    rw [decimationStep_eq cc m d' count hrun]
    have hinv := runCollapses_inv cc hcc (allEdges m.triangleIndices)
      (allEdges m.triangleIndices) (mkPassState m) (fun e he => he)
      (collapseInv_init _ _ rfl)
    rw [hrun] at hinv
    have hidx1valid : ∀ x ∈ (if count > 0 then
        m.triangleIndices.map d'.vertexMapper else m.triangleIndices),
        x < m.vertices.length := by
      split
      · intro x hx
        rw [List.mem_map] at hx
        obtain ⟨j, hj, rfl⟩ := hx
        by_cases hjj : d'.vertexMapper j = j
        · rw [hjj]; exact hvalid j hj
        · exact hvalid _ (allEdges_mem _ _ _ (hinv.2.2.2 j hjj)).2
      · exact hvalid
    have hidx2valid : ∀ x ∈ removeDegenerateTris (if count > 0 then
        m.triangleIndices.map d'.vertexMapper else m.triangleIndices),
        x < m.vertices.length :=
      fun x hx => hidx1valid x (removeDegenerateTris_subset _ x hx)
    refine ⟨removeUnusedVertices_valid m.vertices _ hidx2valid, ?_⟩
    have h1 : (if count > 0 then m.triangleIndices.map d'.vertexMapper
        else m.triangleIndices).length % 3 = 0 := by
      split
      · simpa using hmod
      · exact hmod
    have h2 := removeDegenerateTris_mod3 _ h1
    simpa using h2

theorem decimationStep_measure_lt (cc : Decimator → Nat → Nat → Bool)
    (hcc : locksRespected cc) (m : DecMesh)
    (hvalid : ∀ j ∈ m.triangleIndices, j < m.vertices.length)
    (hpos : (decimationStep cc m).2 > 0) :
    (decimationStep cc m).1.vertices.length +
        (decimationStep cc m).1.triangleIndices.length <
      m.vertices.length + m.triangleIndices.length := by
  cases hrun : runCollapses cc (mkPassState m) (allEdges m.triangleIndices) with
  | mk d' count =>
    rw [decimationStep_eq cc m d' count hrun] at hpos ⊢
    simp only at hpos
    rw [if_pos hpos] at *
    have hinv := runCollapses_inv cc hcc (allEdges m.triangleIndices)
      (allEdges m.triangleIndices) (mkPassState m) (fun e he => he)
      (collapseInv_init _ _ rfl)
    rw [hrun] at hinv
    have hposA := runCollapses_pos cc hcc (allEdges m.triangleIndices)
      (mkPassState m) (by rw [hrun]; exact hpos)
    rw [hrun] at hposA
    simp only at hposA
    rcases hposA with ⟨a, ha⟩ | ⟨e, he, heq⟩
    · -- a proper collapse source becomes unreferenced and is compacted away
      have haIdx : a ∈ m.triangleIndices :=
        (allEdges_mem _ _ _ (hinv.2.2.2 a ha)).1
      have haLen : a < m.vertices.length := hvalid a haIdx
      have hnotin1 : a ∉ m.triangleIndices.map d'.vertexMapper := by
        intro hmem
        rw [List.mem_map] at hmem
        obtain ⟨j, hj, hja⟩ := hmem
        have h3 := hinv.2.2.1 j
        rw [hja] at h3
        exact ha h3
      have hnotin2 : a ∉ removeDegenerateTris
          (m.triangleIndices.map d'.vertexMapper) :=
        fun h => hnotin1 (removeDegenerateTris_subset _ _ h)
      have hlt := keepUsed_length_lt
        (removeDegenerateTris (m.triangleIndices.map d'.vertexMapper))
        m.vertices 0 a haLen (by simpa using hnotin2)
      have hle := removeDegenerateTris_length_le
        (m.triangleIndices.map d'.vertexMapper)
      simp only [List.length_map] at *
      omega
    · -- a self-edge: its degenerate triangle is removed
      obtain ⟨x, y⟩ := e
      simp only at heq
      subst heq
      have hrep := selfEdge_hasRepChunk m.triangleIndices x he
      have hrep1 := hasRepChunk_map d'.vertexMapper m.triangleIndices hrep
      have hlt2 := removeDegenerateTris_length_lt
        (m.triangleIndices.map d'.vertexMapper) hrep1
      have hveq := keepUsed_length_le
        (removeDegenerateTris (m.triangleIndices.map d'.vertexMapper))
        m.vertices 0
      simp only [List.length_map] at *
      omega

theorem decimation_terminates_aux (cc : Decimator → Nat → Nat → Bool)
    (hcc : locksRespected cc) :
    ∀ (n : Nat) (m : DecMesh),
      m.vertices.length + m.triangleIndices.length ≤ n →
      (∀ j ∈ m.triangleIndices, j < m.vertices.length) →
      m.triangleIndices.length % 3 = 0 →
      ∃ k, k ≤ m.vertices.length + m.triangleIndices.length ∧
        (decimationStep cc (iterSteps cc k m)).2 = 0 := by
  intro n
  induction n with
  | zero =>
      intro m hm _ _
      have hidx : m.triangleIndices = [] :=
        List.eq_nil_of_length_eq_zero (by omega)
      refine ⟨0, Nat.zero_le _, ?_⟩
      show (decimationStep cc m).2 = 0
      rw [decimationStep_eq cc m (mkPassState m) 0 (by rw [hidx]; rfl)]
  | succ n ih =>
      intro m hm hv h3
      by_cases h0 : (decimationStep cc m).2 = 0
      · exact ⟨0, Nat.zero_le _, h0⟩
      · have hpos : (decimationStep cc m).2 > 0 := Nat.pos_of_ne_zero h0
        have hmeas := decimationStep_measure_lt cc hcc m hv hpos
        have hval' := decimationStep_preserves_valid cc hcc m hv h3
        obtain ⟨k', hk'le, hk'⟩ := ih (decimationStep cc m).1 (by omega)
          hval'.1 hval'.2
        refine ⟨k' + 1, by omega, ?_⟩
        simpa [iterSteps] using hk'

end TerminationLemmas

/-- C8: within one decimation pass, every accepted collapse locks both its
endpoints and `canCollapseEdge` rejects any edge with a locked endpoint (shown
for the `PositionMaterial` body); consequently, for any eligibility test with
that locked-rejection property, the collapse loop leaves `vertexMapper` free
of chains — `vertexMapper[vertexMapper[i]] = vertexMapper[i]` for every `i` at
index-rewrite time — and every properly mapped vertex and its target are
locked. -/
theorem c8_vertexMapper_no_chains :
    (∀ (d : Decimator) (v0 v1 : Nat),
      d.vertexLocked v0 = true ∨ d.vertexLocked v1 = true →
      canCollapseEdgePM d v0 v1 = false) ∧
    (∀ (cc : Decimator → Nat → Nat → Bool),
      (∀ (d : Decimator) (v0 v1 : Nat),
        d.vertexLocked v0 = true ∨ d.vertexLocked v1 = true →
        cc d v0 v1 = false) →
      ∀ (m : DecMesh) (edges : List (Nat × Nat)) (i : Nat),
        (runCollapses cc (mkPassState m) edges).1.vertexMapper
            ((runCollapses cc (mkPassState m) edges).1.vertexMapper i) =
          (runCollapses cc (mkPassState m) edges).1.vertexMapper i ∧
        ((runCollapses cc (mkPassState m) edges).1.vertexMapper i ≠ i →
          (runCollapses cc (mkPassState m) edges).1.vertexLocked i = true ∧
          (runCollapses cc (mkPassState m) edges).1.vertexLocked
            ((runCollapses cc (mkPassState m) edges).1.vertexMapper i) =
              true)) := by
  refine ⟨canCollapseEdgePM_locksRespected, ?_⟩
  intro cc hcc m edges i
  have hinv := runCollapses_inv cc hcc edges edges (mkPassState m)
    (fun e he => he) (collapseInv_init (mkPassState m) edges rfl)
  obtain ⟨hI1, hI2, hI3, _⟩ := hinv
  refine ⟨hI3 i, fun hproper => ⟨?_, hI2 i hproper⟩⟩
  by_contra hunlocked
  rw [Bool.not_eq_true] at hunlocked
  exact hproper (hI1 i hunlocked)

/-- A one-triangle mesh on which the first collapse loop edge `(0, 1)` is
accepted. -/
def c8mesh : DecMesh where
  vertices := [⟨⟨0, 0, 0⟩, 1⟩, ⟨⟨4, 0, 0⟩, 1⟩, ⟨⟨0, 4, 0⟩, 1⟩]
  triangleIndices := [0, 1, 2]
  regionLower := ⟨-10, -10, -10⟩
  regionUpper := ⟨10, 10, 10⟩

/-- Witness for C8: on the one-triangle mesh the loop collapses `(0, 1)`, and
the final state satisfies the no-chain and both-endpoints-locked properties
at the collapsed source. -/
theorem c8_vertexMapper_no_chains_witness :
    (runCollapses canCollapseEdgePM (mkPassState c8mesh)
        (allEdges c8mesh.triangleIndices)).1.vertexMapper
      ((runCollapses canCollapseEdgePM (mkPassState c8mesh)
        (allEdges c8mesh.triangleIndices)).1.vertexMapper 0) =
      (runCollapses canCollapseEdgePM (mkPassState c8mesh)
        (allEdges c8mesh.triangleIndices)).1.vertexMapper 0 ∧
    (runCollapses canCollapseEdgePM (mkPassState c8mesh)
        (allEdges c8mesh.triangleIndices)).1.vertexMapper 0 ≠ 0 ∧
    (runCollapses canCollapseEdgePM (mkPassState c8mesh)
        (allEdges c8mesh.triangleIndices)).1.vertexLocked 0 = true ∧
    (runCollapses canCollapseEdgePM (mkPassState c8mesh)
        (allEdges c8mesh.triangleIndices)).1.vertexLocked
      ((runCollapses canCollapseEdgePM (mkPassState c8mesh)
        (allEdges c8mesh.triangleIndices)).1.vertexMapper 0) = true := by
  have h := c8_vertexMapper_no_chains.2 canCollapseEdgePM
    c8_vertexMapper_no_chains.1 c8mesh (allEdges c8mesh.triangleIndices) 0
  have hproper : (runCollapses canCollapseEdgePM (mkPassState c8mesh)
      (allEdges c8mesh.triangleIndices)).1.vertexMapper 0 ≠ 0 := by
    with_unfolding_all decide
  exact ⟨h.1, hproper, (h.2 hproper).1, (h.2 hproper).2⟩

/-- A mesh with one degenerate input triangle `(0,0,1)` and one proper
triangle `(0,1,2)`, on which the first decimation pass accepts only the
self-edge `(0,0)`. -/
def c10mesh : DecMesh where
  vertices := [⟨⟨0, 0, 0⟩, 1⟩, ⟨⟨4, 0, 0⟩, 1⟩, ⟨⟨0, 4, 0⟩, 2⟩]
  triangleIndices := [0, 0, 1, 0, 1, 2]
  regionLower := ⟨-10, -10, -10⟩
  regionUpper := ⟨10, 10, 10⟩

/-- C10 counterexample: a pass over `c10mesh` collapses exactly one edge (the
self-edge `(0,0)` of the degenerate triangle, locking vertex 0), yet after the
index rewrite the collapsed source 0 is still referenced, and after removing
degenerate triangles and unused vertices the vertex count is unchanged — so a
collapsing pass need not strictly decrease the vertex count. -/
theorem c10_pass_counterexample :
    (decimationStep canCollapseEdgePM c10mesh).2 = 1 ∧
    (runCollapses canCollapseEdgePM (mkPassState c10mesh)
      (allEdges c10mesh.triangleIndices)).1.vertexLocked 0 = true ∧
    0 ∈ (performDecimationPass canCollapseEdgePM c10mesh).1.triangleIndices ∧
    (decimationStep canCollapseEdgePM c10mesh).1.vertices.length =
      c10mesh.vertices.length := by
  refine ⟨?_, ?_, ?_, ?_⟩ <;> with_unfolding_all decide

/-- C10 amended: for any edge-eligibility test that rejects locked endpoints
(both `canCollapseEdge` bodies do), the decimator's execute loop terminates on
every well-formed finite mesh: each pass that accepts a collapse either has a
proper source vertex, which ends the pass unreferenced and is removed, or
accepted only self-edges of degenerate triangles, at least one of which is
removed — so vertices+triangle-indices strictly decreases and the number of
passes is bounded by its initial value. -/
theorem c10_execute_terminates (cc : Decimator → Nat → Nat → Bool)
    (hcc : ∀ (d : Decimator) (v0 v1 : Nat),
      d.vertexLocked v0 = true ∨ d.vertexLocked v1 = true →
      cc d v0 v1 = false)
    (m : DecMesh)
    (hvalid : ∀ j ∈ m.triangleIndices, j < m.vertices.length)
    (hmod : m.triangleIndices.length % 3 = 0) :
    ∃ k, k ≤ m.vertices.length + m.triangleIndices.length ∧
      (decimationStep cc (iterSteps cc k m)).2 = 0 :=
  decimation_terminates_aux cc hcc
    (m.vertices.length + m.triangleIndices.length) m le_rfl hvalid hmod

/-- Witness for C10: the execute loop on the one-triangle mesh reaches a pass
with zero collapses within the vertex+index bound. -/
theorem c10_execute_terminates_witness :
    ∃ k, k ≤ c8mesh.vertices.length + c8mesh.triangleIndices.length ∧
      (decimationStep canCollapseEdgePM
        (iterSteps canCollapseEdgePM k c8mesh)).2 = 0 :=
  c10_execute_terminates canCollapseEdgePM canCollapseEdgePM_locksRespected
    c8mesh (by decide) (by decide)

/-- A decimator state with a corner vertex flag and a vertex outside the
region, for exercising the first two rejections of `canCollapseEdge`. -/
def decWitnessA : Decimator where
  vertices := [⟨⟨1, 0, 0⟩, 1⟩, ⟨⟨2, 0, 0⟩, 1⟩]
  triangleIndices := []
  regionLower := ⟨0, 0, 0⟩
  regionUpper := ⟨0, 0, 0⟩
  hasDuplicate := fun _ => false
  materialKey := fun _ => 0
  trianglesUsingVertex := fun _ => []
  noOfDifferentNormals := fun _ => 3
  vertexMapper := fun i => i
  vertexLocked := fun _ => false

/-- A decimator state with two coincident vertices and unequal
`noOfDifferentNormals`, for exercising the last two rejections of
`canCollapseEdge`. -/
def decWitnessB : Decimator where
  vertices := [⟨⟨0, 0, 0⟩, 1⟩, ⟨⟨0, 0, 0⟩, 1⟩]
  triangleIndices := []
  regionLower := ⟨0, 0, 0⟩
  regionUpper := ⟨5, 5, 5⟩
  hasDuplicate := computeHasDuplicate [⟨⟨0, 0, 0⟩, 1⟩, ⟨⟨0, 0, 0⟩, 1⟩]
  materialKey := fun _ => 0
  trianglesUsingVertex := fun _ => []
  noOfDifferentNormals := fun i => if i = 0 then 2 else 1
  vertexMapper := fun i => i
  vertexLocked := fun _ => false

/-- Witness for C9: each rejection fires on a concrete decimator state. -/
theorem c9_canCollapseEdgePM_rejections_witness :
    (decWitnessA.noOfDifferentNormals 0 = 3 ∧
      canCollapseEdgePM decWitnessA 0 1 = false) ∧
    (regionContainsPoint decWitnessA.regionLower decWitnessA.regionUpper
        ((decWitnessA.vertices.getD 0 default).position.add
          decWitnessA.regionLower) = false ∧
      canCollapseEdgePM decWitnessA 0 1 = false) ∧
    (decWitnessB.noOfDifferentNormals 0 > decWitnessB.noOfDifferentNormals 1 ∧
      canCollapseEdgePM decWitnessB 0 1 = false) ∧
    canCollapseEdgePM decWitnessB 0 1 = false :=
  ⟨⟨rfl, (c9_canCollapseEdgePM_rejections decWitnessA 0 1).1 rfl⟩,
   ⟨by with_unfolding_all decide,
    (c9_canCollapseEdgePM_rejections decWitnessA 0 1).2.1
      (by with_unfolding_all decide)⟩,
   ⟨by decide,
    (c9_canCollapseEdgePM_rejections decWitnessB 0 1).2.2.1 (by decide)⟩,
   (c9_canCollapseEdgePM_rejections decWitnessB 0 1).2.2.2 rfl 1
     (by decide) (by decide) (by decide) (by with_unfolding_all decide)⟩

/-- Witness for C3: an oversized region (width 301) is rejected with
`RegionTooLargeToEncode`, and the in-range 3×3×3 region never produces that
error. -/
theorem c3_region_size_check_witness :
    (Region.getWidthInVoxels ⟨0, 0, 0, 300, 2, 2⟩ > 255 ∧
      extractCubicMeshCustom singleVoxelVolume ⟨0, 0, 0, 300, 2, 2⟩
        solidIsQuadNeeded id true = .error .regionTooLargeToEncode) ∧
    (Region.getWidthInVoxels region3 ≤ 255 ∧
      extractCubicMeshCustom singleVoxelVolume region3
        solidIsQuadNeeded id true ≠ .error .regionTooLargeToEncode) :=
  ⟨⟨by decide,
    (c3_region_size_check singleVoxelVolume ⟨0, 0, 0, 300, 2, 2⟩
      solidIsQuadNeeded id true).1 (Or.inl (by decide))⟩,
   ⟨by decide,
    (c3_region_size_check singleVoxelVolume region3
      solidIsQuadNeeded id true).2 ⟨by decide, by decide, by decide⟩⟩⟩

end PolyVox
